import Mathlib

/-!
# Mandelbrot renderer (`src/main.go`): shallow embedding and verified properties

The Go program renders the Mandelbrot set into an 8-bit grayscale image. The
rows of the image are cut into eight bands, one goroutine per band, and every
band runs `render` over its own rows.

Modelling conventions.

* Go `int` values are modelled by `Int`. The band arithmetic of `main` never
  leaves the 64-bit range (`bands_in_int64`), so no wrap-around is needed
  there. Go's `/` on integers truncates toward zero: `Int.tdiv`.
* The `uint8` loop counter of `mandelbrot` is a `Nat` with an explicit
  `% 256` on every arithmetic operation that can wrap.
* `float64` / `complex128` arithmetic is kept abstract: the definitions are
  written for any carrier `F` with `0`, `+`, `-`, `*`, `/`, a conversion from
  integers, and a test for `cmplx.Abs(v) > 2`. Properties of control flow,
  band partitioning and buffer writes are proved for every such carrier.
  Properties that depend on the value of the arithmetic are proved over exact
  arithmetic, i.e. for every linear ordered field (so for `ℚ`, where the
  definitions can be evaluated, and for `ℝ`).
* `Float64` is a model of IEEE 754 binary64 with round to nearest, ties to
  even, on finite values, with `math.Sqrt` and `math.Hypot` on top of it. It
  is the carrier on which the program is evaluated where rounding matters.
* `image.Gray` is modelled by its rectangle and a pixel function.
* `main` is modelled by the list of its steps (`Event`): its effects and the
  calls it makes, in order. What it obtains from the standard library and the
  operating system (`strconv.ParseFloat`, `image.NewGray`, `os.Create`) is a
  parameter (`World`).
-/

namespace Mandelbrot

/-! ## Band scheduler (`main`, lines 80-93) -/

/-- The value `rowsPerBand := height / 8` of `main`; Go integer division
truncates toward zero. -/
def rowsPerBand (height : Int) : Int := Int.tdiv height 8

/-- The pair `(startRow, endRow)` computed by the loop body of `main` for the
loop index `i`. -/
def band (height : Int) (i : Int) : Int × Int :=
  let startRow := i * rowsPerBand height
  let endRow := (i + 1) * rowsPerBand height
  (startRow, if i = 7 then height else endRow)

/-- The row ranges handed to the eight goroutines, `for i := 0; i < 8; i++`. -/
def bands (height : Int) : List (Int × Int) :=
  (List.range 8).map (fun (i : Nat) => band height (i : Int))

/-- Row `y` lies in the half-open row range `b = (startRow, endRow)`. -/
def inBand (b : Int × Int) (y : Int) : Prop := b.1 ≤ y ∧ y < b.2

instance (b : Int × Int) (y : Int) : Decidable (inBand b y) := by
  unfold inBand; infer_instance

/-! ## Arithmetic carrier -/

/-- The one operation of `math/cmplx` the program uses:
`absGtTwo re im` is the outcome of the test `cmplx.Abs(complex(re, im)) > 2`. -/
class CmplxAbs (F : Type) where
  absGtTwo : F → F → Bool

/-- Exact arithmetic: `sqrt (re² + im²) > 2` holds exactly when
`re² + im² > 4` (see `absGtTwo_real_iff` for the real numbers). This is the
test of the program with the rounding of `float64` left out; the rounded test
is `Float64.instCmplxAbs`. -/
instance exactCmplxAbs {K : Type} [LinearOrderedField K] : CmplxAbs K where
  absGtTwo re im := decide (4 < re * re + im * im)

/-- A Go `complex128`: a pair of scalars of the carrier `F`. -/
structure Complex128 (F : Type) where
  re : F
  im : F

namespace Complex128

variable {F : Type}

/-- The zero value of `var v complex128`. -/
instance instZero [Zero F] : Zero (Complex128 F) := ⟨⟨0, 0⟩⟩

/-- Complex addition, componentwise. -/
instance instAdd [Add F] : Add (Complex128 F) :=
  ⟨fun a b => ⟨a.re + b.re, a.im + b.im⟩⟩

/-- Complex multiplication `(a + bi)(c + di) = (ac - bd) + (ad + bc)i`. -/
instance instMul [Add F] [Sub F] [Mul F] : Mul (Complex128 F) :=
  ⟨fun a b => ⟨a.re * b.re - a.im * b.im, a.re * b.im + a.im * b.re⟩⟩

end Complex128

/-! ## Colours (`image/color`) -/

/-- The two colour types the program produces: `color.Gray{Y}` (`Y` a
`uint8`) and `color.Gray16{Y}` (`Y` a `uint16`). -/
inductive Color where
  | Gray (Y : Nat)
  | Gray16 (Y : Nat)
  deriving DecidableEq

/-- The constant `color.Black = Gray16{0}`. -/
def Black : Color := Color.Gray16 0

/-- The byte `color.GrayModel.Convert(c).(color.Gray).Y` that `img.Set`
stores: a `Gray` is kept as it is, any other colour goes through its
16-bit `RGBA` channels (`r = g = b = Y` for a `Gray16`). -/
def Color.grayY : Color → Nat
  | Color.Gray y => y
  | Color.Gray16 y => ((19595 * y + 38470 * y + 7471 * y + 2 ^ 15) / 2 ^ 24) % 256

/-! ## Escape-time evaluator (`mandelbrot`, lines 41-53) -/

/-- The constant `iterations`. -/
def iterations : Nat := 255

/-- The constant `contrast`. -/
def contrast : Nat := 15

section Evaluator

variable {F : Type} [Add F] [Sub F] [Mul F] [CmplxAbs F]

/-- The loop `for n := uint8(0); n < iterations; n++` of `mandelbrot`, entered
at the loop test with the current value `v` and counter `n`.

The first component is the colour returned. The second component is a ghost
record of the run: the counter values with which the loop body was executed,
in order. The counter is a `uint8`: `n++` is `(n + 1) % 256`, the product
`contrast*n` and the subtraction from `255` are taken modulo `256`. -/
def mandelbrotLoop (z v : Complex128 F) (n : Nat) : Color × List Nat :=
  if n < iterations then
    let v' := v * v + z
    if CmplxAbs.absGtTwo v'.re v'.im then
      (Color.Gray ((255 + 256 - contrast * n % 256) % 256), [n])
    else
      let r := mandelbrotLoop z v' ((n + 1) % 256)
      (r.1, n :: r.2)
  else
    (Black, [])
termination_by iterations - n
decreasing_by
  simp only [iterations] at *
  omega

/-- The function `mandelbrot(z)`: the loop started with `v = 0`, `n = 0`. -/
def mandelbrot [Zero F] (z : Complex128 F) : Color := (mandelbrotLoop z 0 0).1

/-- Ghost: the counter values with which the loop body of `mandelbrot(z)`
runs, in the order of execution. -/
def mandelbrotCounters [Zero F] (z : Complex128 F) : List Nat := (mandelbrotLoop z 0 0).2

/-- The orbit of the specification: `v_0 = 0`, `v_(k+1) = v_k² + z`. -/
def orbit [Zero F] (z : Complex128 F) : Nat → Complex128 F
  | 0 => 0
  | k + 1 => orbit z k * orbit z k + z

/-- The escape test `|v| > 2` on a complex value. -/
def escaped {F : Type} [CmplxAbs F] (v : Complex128 F) : Bool := CmplxAbs.absGtTwo v.re v.im

end Evaluator

/-! ## Pixel buffer (`image.Gray`) -/

/-- An `image.Rectangle`: `Min = (minX, minY)`, `Max = (maxX, maxY)`. -/
structure Rectangle where
  minX : Int
  minY : Int
  maxX : Int
  maxY : Int

/-- The test `Point{x, y}.In(r)`. -/
def Rectangle.contains (r : Rectangle) (x y : Int) : Prop :=
  r.minX ≤ x ∧ x < r.maxX ∧ r.minY ≤ y ∧ y < r.maxY

instance (r : Rectangle) (x y : Int) : Decidable (r.contains x y) := by
  unfold Rectangle.contains; infer_instance

/-- An `image.Gray`: its rectangle and the byte held for each pixel. Pixels
outside the rectangle have no storage; `Pix` is never changed there. -/
structure Gray where
  Rect : Rectangle
  Pix : Int → Int → Nat

/-- The method `(*image.Gray).Set(x, y, c)`: nothing happens outside the
rectangle, inside it the gray conversion of `c` is stored at `(x, y)`. -/
def Gray.Set (p : Gray) (x y : Int) (c : Color) : Gray :=
  if p.Rect.contains x y then
    { p with Pix := fun x' y' => if x' = x ∧ y' = y then c.grayY else p.Pix x' y' }
  else p

/-! ## Renderer (`render`, lines 55-64) -/

/-- The values a Go loop `for k := a; k < b; k++` gives its variable. -/
def intRange (a b : Int) : List Int :=
  (List.range (b - a).toNat).map (fun (k : Nat) => a + (k : Int))

/-- The two nested loops of `render`,
`for y := startRow; y < endRow; y++ { for x := 0; x < bounds[0]; x++ { body } }`,
threading a state `s` through the executions of the body. -/
def renderLoops {σ : Type} (body : σ → Int → Int → σ) (bounds : Int × Int)
    (startRow endRow : Int) (s : σ) : σ :=
  (intRange startRow endRow).foldl
    (fun s y => (intRange 0 bounds.1).foldl (fun s x => body s x y) s) s

section Renderer

variable {F : Type}

/-- The coordinate mapper, lines 58-59 of `render`: the complex coordinate
`complex(re, im)` of the pixel `(x, y)`. -/
def mapper [Add F] [Sub F] [Mul F] [Div F] [IntCast F] (bounds : Int × Int) (upperLeft lowerRight : Complex128 F) (x y : Int) :
    Complex128 F :=
  let re := upperLeft.re + (lowerRight.re - upperLeft.re) * (x : F) / (bounds.1 : F)
  let im := upperLeft.im + (lowerRight.im - upperLeft.im) * (y : F) / (bounds.2 : F)
  ⟨re, im⟩

/-- The function `render`. -/
def render [Zero F] [Add F] [Sub F] [Mul F] [Div F] [IntCast F] [CmplxAbs F]
    (img : Gray) (bounds : Int × Int) (upperLeft lowerRight : Complex128 F)
    (startRow endRow : Int) : Gray :=
  renderLoops
    (fun img x y => img.Set x y (mandelbrot (mapper bounds upperLeft lowerRight x y)))
    bounds startRow endRow img

/-- The calls `render(img, bounds, upperLeft, lowerRight, startRow, endRow)`
for a list of row ranges, one after the other. -/
def renderBands [Zero F] [Add F] [Sub F] [Mul F] [Div F] [IntCast F] [CmplxAbs F]
    (img : Gray) (bounds : Int × Int) (upperLeft lowerRight : Complex128 F)
    (l : List (Int × Int)) : Gray :=
  l.foldl (fun img b => render img bounds upperLeft lowerRight b.1 b.2) img

end Renderer

/-- Ghost run of `render`: every execution of the loop body evaluates the two
divisions of the mapper, by `float64(bounds[0])` and by `float64(bounds[1])`;
the integer divisors are appended to the log. -/
def renderDivisors (bounds : Int × Int) (startRow endRow : Int) (log : List Int) :
    List Int :=
  renderLoops (fun log _ _ => log ++ [bounds.1, bounds.2]) bounds startRow endRow log

/-- The divisors of all mapper divisions evaluated by the eight `render` calls
of `main` for an image of `width` by `height`. -/
def mainDivisors (width height : Int) : List Int :=
  (bands height).foldl (fun log b => renderDivisors (width, height) b.1 b.2 log) []

/-! ## Dimension parsing (`parsePair`, lines 15-26) -/

/-- The call `strings.Split(s, string(separator))` for a one-character
separator: the pieces of `s` between the occurrences of the separator. -/
def Split : List Char → Char → List (List Char)
  | [], _ => [[]]
  | c :: cs, sep =>
    if c = sep then [] :: Split cs sep
    else
      match Split cs sep with
      | p :: ps => (c :: p) :: ps
      | [] => [[c]]

/-- The value of a decimal digit, `none` for any other character. -/
def digitVal (c : Char) : Option Nat :=
  if '0' ≤ c ∧ c ≤ '9' then some (c.toNat - '0'.toNat) else none

/-- The value of a string of decimal digits read most significant first,
starting from the accumulator `acc`; `none` if a character is not a digit. -/
def parseDigits : List Char → Nat → Option Nat
  | [], acc => some acc
  | c :: cs, acc =>
    match digitVal c with
    | some d => parseDigits cs (acc * 10 + d)
    | none => none

/-- The function `strconv.Atoi` on a 64-bit platform, `none` standing for a
non-nil error: an optional sign `+` or `-`, then one or more decimal digits,
and the value must fit a signed 64-bit integer. -/
def Atoi (s : List Char) : Option Int :=
  let (neg, ds) :=
    match s with
    | '-' :: r => (true, r)
    | '+' :: r => (false, r)
    | r => (false, r)
  if ds.isEmpty then none
  else
    match parseDigits ds 0 with
    | none => none
    | some n =>
      let v : Int := if neg then -(n : Int) else (n : Int)
      if -(2 : Int) ^ 63 ≤ v ∧ v < (2 : Int) ^ 63 then some v else none

/-- The two panics of `parsePair`. -/
inductive ParseError where
  | invalidFormat
  | invalidNumbers
  deriving DecidableEq

/-- The function `parsePair`; a panic is an `Except.error`. -/
def parsePair (s : String) (separator : Char) : Except ParseError (Int × Int) :=
  match Split s.toList separator with
  | [p0, p1] =>
    match Atoi p0, Atoi p1 with
    | some x, some y => Except.ok (x, y)
    | _, _ => Except.error ParseError.invalidNumbers
  | _ => Except.error ParseError.invalidFormat

/-! ## Program entry (`parseComplex`, lines 28-39, and `main`, lines 66-102) -/

/-- What a run obtains from outside the source file. `ParseFloat s` is the call
`strconv.ParseFloat(s, 64)`, `none` standing for a non-nil error; `NewGray r`
is the call `image.NewGray(r)`, `none` when it panics; `Create path` tells
whether `os.Create(path)` returns without error. -/
structure World (F : Type) where
  ParseFloat : List Char → Option F
  NewGray : Rectangle → Option Gray
  Create : String → Bool

/-- The function `parseComplex`; a panic is an `Except.error`. -/
def parseComplex {F : Type} (w : World F) (s : String) : Except ParseError (Complex128 F) :=
  match Split s.toList ',' with
  | [p0, p1] =>
    match w.ParseFloat p0, w.ParseFloat p1 with
    | some re, some im => Except.ok ⟨re, im⟩
    | _, _ => Except.error ParseError.invalidNumbers
  | _ => Except.error ParseError.invalidFormat

/-- The function `image.Rect`: the rectangle with the given corners, the
coordinates swapped where needed so that `Min ≤ Max`. -/
def Rect (x0 y0 x1 y1 : Int) : Rectangle :=
  { minX := if x0 > x1 then x1 else x0
    minY := if y0 > y1 then y1 else y0
    maxX := if x0 > x1 then x0 else x1
    maxY := if y0 > y1 then y0 else y1 }

/-- The steps of a run of `main`, in the order in which they happen. `Println`,
`Exit`, `Panic`, `Create`, `Encode` and `Close` are the effects of the program
on its surroundings; `ParsePair`, `ParseComplex`, `NewGray` and `Render` record
that the call was made. -/
inductive Event where
  | Println (line : String)
  | Exit (status : Int)
  | ParsePair (s : String)
  | ParseComplex (s : String)
  | Panic
  | NewGray (r : Rectangle)
  | Render (startRow endRow : Int)
  | Create (path : String)
  | Encode (img : Gray)
  | Close

/-- The line printed by the usage branch of `main`. -/
def usage : String :=
  "Usage: mandelbrot <output.png> <width>x<height> <upperLeft> <lowerRight>"

/-- The function `main` on the argument vector `os.Args` (program name
included): the list of its steps. `os.Exit` and a panic end the run. The eight
goroutines are run one after the other in the order of the loop. The last
case of the `match` cannot occur: it is under `len(os.Args) = 5`. -/
def main {F : Type} [Zero F] [Add F] [Sub F] [Mul F] [Div F] [IntCast F] [CmplxAbs F]
    (w : World F) (args : List String) : List Event :=
  if args.length ≠ 5 then
    [Event.Println usage, Event.Exit 1]
  else
    match args with
    | [_, output, boundsStr, upperLeftStr, lowerRightStr] =>
      Event.ParsePair boundsStr ::
      match parsePair boundsStr 'x' with
      | Except.error _ => [Event.Panic]
      | Except.ok (width, height) =>
        Event.ParseComplex upperLeftStr ::
        match parseComplex w upperLeftStr with
        | Except.error _ => [Event.Panic]
        | Except.ok upperLeft =>
          Event.ParseComplex lowerRightStr ::
          match parseComplex w lowerRightStr with
          | Except.error _ => [Event.Panic]
          | Except.ok lowerRight =>
            Event.NewGray (Rect 0 0 width height) ::
            match w.NewGray (Rect 0 0 width height) with
            | none => [Event.Panic]
            | some img =>
              (bands height).map (fun b => Event.Render b.1 b.2) ++
              Event.Create output ::
              (if w.Create output then
                [Event.Encode
                  (renderBands img (width, height) upperLeft lowerRight (bands height)),
                  Event.Close]
              else [Event.Panic])
    | _ => []

/-! ## Notions of the specification -/

/-- The byte expression `255 - contrast*n` of line 49, in `uint8` arithmetic. -/
def escapeIntensity (n : Nat) : Nat := (255 + 256 - contrast * n % 256) % 256

/-- The squared magnitude `|v|²` of a complex value. -/
def normSq {F : Type} [Add F] [Mul F] (v : Complex128 F) : F := v.re * v.re + v.im * v.im

/-- The character of a decimal digit `d < 10`. -/
def digitChar (d : Nat) : Char := Char.ofNat ('0'.toNat + d)

/-- The decimal rendering of a natural number, most significant digit first;
`0` is rendered as the single digit `0`. -/
def decimalNat (n : Nat) : List Char :=
  if n = 0 then ['0'] else ((Nat.digits 10 n).reverse).map digitChar

/-- The decimal rendering of an integer (as `strconv.Itoa` gives it): a minus
sign for a negative number, then the digits of its absolute value. -/
def decimal (i : Int) : List Char :=
  if i < 0 then '-' :: decimalNat i.natAbs else decimalNat i.natAbs

/-- The string `<w>x<h>` made of the decimal renderings of `w` and `h`. -/
def pairString (w h : Int) : String := String.mk (decimal w ++ 'x' :: decimal h)

/-! ## A model of `float64` (IEEE 754 binary64, round to nearest, ties to even) -/

/-- A finite `float64`: the integer `k` stands for the value `k * 2^(-1074)`.
Every finite binary64 value, normal or subnormal, is such a multiple.
Infinities, NaN and the sign of zero are not part of the model: it describes
the computations whose operands and results are finite. -/
structure Float64 where
  k : Int
  deriving DecidableEq

namespace Float64

/-- The integer nearest to `p / q`, a tie going to the even neighbour. -/
def roundEven (p q : Nat) : Nat :=
  let f := p / q
  let r := p % q
  if 2 * r < q then f else if q < 2 * r then f + 1 else f + f % 2

/-- Rounding to binary64: the `float64` nearest to the rational `p / q`
(counted in units of `2^(-1074)`), ties to even. Below `2^53` units every
integer is representable (subnormals and the first normal binade); from there
on the step is `2^s` with `s = ⌊log₂ |p / q|⌋ - 52`, which keeps 53 significant
bits. -/
def roundNearest (p : Int) (q : Nat) : Float64 :=
  let s := Nat.log 2 (p.natAbs / q) - 52
  ⟨Int.sign p * ((roundEven p.natAbs (q * 2 ^ s) * 2 ^ s : Nat) : Int)⟩

/-- The conversion `float64(i)` of an integer. -/
def ofInt (i : Int) : Float64 := roundNearest (i * 2 ^ 1074) 1

instance instZero : Zero Float64 := ⟨⟨0⟩⟩

/-- The sum `x + y`, rounded. -/
instance instAdd : Add Float64 := ⟨fun x y => roundNearest (x.k + y.k) 1⟩

/-- The difference `x - y`, rounded. -/
instance instSub : Sub Float64 := ⟨fun x y => roundNearest (x.k - y.k) 1⟩

/-- The product `x * y`, rounded. -/
instance instMul : Mul Float64 := ⟨fun x y => roundNearest (x.k * y.k) (2 ^ 1074)⟩

/-- The quotient `x / y`, rounded (`y` not zero). -/
instance instDiv : Div Float64 :=
  ⟨fun x y => roundNearest (x.k * 2 ^ 1074 * Int.sign y.k) y.k.natAbs⟩

instance instIntCast : IntCast Float64 := ⟨ofInt⟩

/-- The function `math.Abs`. -/
def abs (x : Float64) : Float64 := ⟨(x.k.natAbs : Int)⟩

/-- The function `math.Sqrt` on a value `x ≥ 0`, correctly rounded. With
`N = k * 2^1074` the exact root is `√N` units; `n * 2^s` and `(n + 1) * 2^s`
are the two neighbouring `float64` values, and `√N` is compared with their
midpoint through `4 * N` against `((2 * n + 1) * 2^s)²`. -/
def sqrt (x : Float64) : Float64 :=
  let N := x.k.toNat * 2 ^ 1074
  let f := Nat.sqrt N
  let s := Nat.log 2 f - 52
  let n := f / 2 ^ s
  let m := (2 * n + 1) * 2 ^ s
  if 4 * N < m * m then ⟨((n * 2 ^ s : Nat) : Int)⟩
  else if m * m < 4 * N then ⟨(((n + 1) * 2 ^ s : Nat) : Int)⟩
  else ⟨(((n + n % 2) * 2 ^ s : Nat) : Int)⟩

/-- The function `math.Hypot` on finite arguments, as the Go library computes
it: `p * Sqrt(1 + (q/p)*(q/p))` with `p` the larger and `q` the smaller of the
two absolute values, and `0` when both are zero. -/
def Hypot (p q : Float64) : Float64 :=
  let p := abs p
  let q := abs q
  let hi := if p.k < q.k then q else p
  let lo := if p.k < q.k then p else q
  if hi.k = 0 then 0
  else
    let r := lo / hi
    hi * sqrt (ofInt 1 + r * r)

/-- The test `cmplx.Abs(complex(re, im)) > 2` in `float64`:
`cmplx.Abs(x)` is `math.Hypot(real(x), imag(x))`. -/
instance instCmplxAbs : CmplxAbs Float64 where
  absGtTwo re im := decide ((ofInt 2).k < (Hypot re im).k)

end Float64

/-! ## Theorems -/

theorem rowsPerBand_eq_ediv (H : Int) (hH : 0 ≤ H) : rowsPerBand H = H / 8 := by
  unfold rowsPerBand
  exact Int.tdiv_eq_ediv hH (by decide)

theorem bands_length (H : Int) : (bands H).length = 8 := by
  simp [bands]

theorem bands_getElem? (H : Int) (i : Nat) (hi : i < 8) :
    (bands H)[i]? = some (band H (i : Int)) := by
  simp [bands, List.getElem?_map, List.getElem?_range hi]

theorem mem_bands (H : Int) (b : Int × Int) :
    b ∈ bands H ↔ ∃ i : Nat, i < 8 ∧ b = band H (i : Int) := by
  simp only [bands, List.mem_map, List.mem_range]
  constructor
  · rintro ⟨i, hi, rfl⟩; exact ⟨i, hi, rfl⟩
  · rintro ⟨i, hi, rfl⟩; exact ⟨i, hi, rfl⟩

/-- Closed form of a band for a non-negative height. -/
theorem band_eq (H : Int) (hH : 0 ≤ H) (i : Int) :
    band H i = (i * (H / 8), if i = 7 then H else (i + 1) * (H / 8)) := by
  simp only [band, rowsPerBand_eq_ediv H hH]

/-- A row of `[0, H)` lies in some band. -/
theorem exists_band (H : Int) (hH : 0 ≤ H) (y : Int) (h0 : 0 ≤ y) (h1 : y < H) :
    ∃ i : Nat, i < 8 ∧ inBand (band H (i : Int)) y := by
  have key : y < 1 * (H / 8) ∨ (1 * (H / 8) ≤ y ∧ y < 2 * (H / 8)) ∨
      (2 * (H / 8) ≤ y ∧ y < 3 * (H / 8)) ∨ (3 * (H / 8) ≤ y ∧ y < 4 * (H / 8)) ∨
      (4 * (H / 8) ≤ y ∧ y < 5 * (H / 8)) ∨ (5 * (H / 8) ≤ y ∧ y < 6 * (H / 8)) ∨
      (6 * (H / 8) ≤ y ∧ y < 7 * (H / 8)) ∨ 7 * (H / 8) ≤ y := by omega
  rcases key with h | h | h | h | h | h | h | h
  · exact ⟨0, by decide, by simp [band_eq H hH, inBand]; omega⟩
  · exact ⟨1, by decide, by simp [band_eq H hH, inBand]; omega⟩
  · exact ⟨2, by decide, by simp [band_eq H hH, inBand]; omega⟩
  · exact ⟨3, by decide, by simp [band_eq H hH, inBand]; omega⟩
  · exact ⟨4, by decide, by simp [band_eq H hH, inBand]; omega⟩
  · exact ⟨5, by decide, by simp [band_eq H hH, inBand]; omega⟩
  · exact ⟨6, by decide, by simp [band_eq H hH, inBand]; omega⟩
  · exact ⟨7, by decide, by simp [band_eq H hH, inBand]; omega⟩

/-- Every band stays inside `[0, H)`. -/
theorem band_subset (H : Int) (hH : 0 ≤ H) (i : Nat) (hi : i < 8) (y : Int)
    (hy : inBand (band H (i : Int)) y) : 0 ≤ y ∧ y < H := by
  rw [band_eq H hH] at hy
  simp only [inBand] at hy
  interval_cases i <;> simp at hy <;> omega

/-- Two bands that share a row are the same band. -/
theorem band_disjoint (H : Int) (hH : 0 ≤ H) (i j : Nat) (hi : i < 8) (hj : j < 8)
    (y : Int) (hyi : inBand (band H (i : Int)) y) (hyj : inBand (band H (j : Int)) y) :
    i = j := by
  rw [band_eq H hH] at hyi hyj
  simp only [inBand] at hyi hyj
  interval_cases i <;> interval_cases j <;> simp at hyi hyj <;> omega

/-- C1. Partition completeness of the band scheduler: for every height
`H ≥ 0` the eight row ranges computed in `main` are `[i*r, (i+1)*r)` for
`i = 0..6` and `[7*r, H)` for `i = 7` with `r = H / 8`; every row `y` of
`[0, H)` belongs to exactly one band, and no band contains a row outside
`[0, H)`. -/
theorem bands_partition (H : Int) (hH : 0 ≤ H) :
    (bands H).length = 8 ∧
    (∀ i : Nat, i < 8 → (bands H)[i]? =
      some ((i : Int) * (H / 8), if i = 7 then H else ((i : Int) + 1) * (H / 8))) ∧
    (∀ y : Int, 0 ≤ y → y < H →
      ∃! i : Nat, i < 8 ∧ ∃ b, (bands H)[i]? = some b ∧ inBand b y) ∧
    (∀ (i : Nat) (b : Int × Int) (y : Int),
      (bands H)[i]? = some b → inBand b y → 0 ≤ y ∧ y < H) := by
  refine ⟨bands_length H, ?_, ?_, ?_⟩
  · intro i hi
    rw [bands_getElem? H i hi, band_eq H hH]
    have h7 : ((i : Int) = 7) ↔ i = 7 := by omega
    simp only [h7]
  · intro y h0 h1
    obtain ⟨i, hi, hy⟩ := exists_band H hH y h0 h1
    refine ⟨i, ⟨hi, _, bands_getElem? H i hi, hy⟩, ?_⟩
    rintro j ⟨hj, b, hb, hyb⟩
    rw [bands_getElem? H j hj] at hb
    cases hb
    exact band_disjoint H hH j i hj hi y hyb hy
  · intro i b y hb hy
    have hi : i < 8 := by
      by_contra hcon
      have : (bands H)[i]? = none := by
        apply List.getElem?_eq_none
        rw [bands_length]; omega
      rw [this] at hb; cases hb
    rw [bands_getElem? H i hi] at hb
    cases hb
    exact band_subset H hH i hi y hy

/-- Witness for C1 at height 19: the bands are `[0,2) … [12,14), [14,19)`. -/
theorem bands_partition_witness :
    (0 : Int) ≤ 19 ∧ (bands 19).length = 8 ∧
    (∀ y : Int, 0 ≤ y → y < 19 →
      ∃! i : Nat, i < 8 ∧ ∃ b, (bands 19)[i]? = some b ∧ inBand b y) :=
  ⟨by decide, (bands_partition 19 (by decide)).1, (bands_partition 19 (by decide)).2.2.1⟩

/-! ### Escape-time evaluator -/

/-- One unfolding of the loop when the body escapes. -/
theorem mandelbrotLoop_escape {F : Type} [Add F] [Sub F] [Mul F] [CmplxAbs F]
    (z v : Complex128 F) (n : Nat) (hn : n < 255) (h : escaped (v * v + z) = true) :
    mandelbrotLoop z v n = (Color.Gray (255 - 15 * n % 256), [n]) := by
  rw [mandelbrotLoop]
  have h' : CmplxAbs.absGtTwo (v * v + z).re (v * v + z).im = true := h
  have e : (255 + 256 - 15 * n % 256) % 256 = 255 - 15 * n % 256 := by omega
  simp [iterations, contrast, hn, h', e]

/-- One unfolding of the loop when the body does not escape. -/
theorem mandelbrotLoop_continue {F : Type} [Add F] [Sub F] [Mul F] [CmplxAbs F]
    (z v : Complex128 F) (n : Nat) (hn : n < 255) (h : escaped (v * v + z) = false) :
    mandelbrotLoop z v n =
      ((mandelbrotLoop z (v * v + z) (n + 1)).1,
        n :: (mandelbrotLoop z (v * v + z) (n + 1)).2) := by
  rw [mandelbrotLoop]
  have h' : CmplxAbs.absGtTwo (v * v + z).re (v * v + z).im = false := h
  have e : (n + 1) % 256 = n + 1 := by omega
  simp [iterations, hn, h', e]

/-- The loop exits at once when the counter has reached `iterations`. -/
theorem mandelbrotLoop_exit {F : Type} [Add F] [Sub F] [Mul F] [CmplxAbs F]
    (z v : Complex128 F) (n : Nat) (hn : 255 ≤ n) :
    mandelbrotLoop z v n = (Black, []) := by
  rw [mandelbrotLoop]
  have : ¬ n < 255 := by omega
  simp [iterations, this]

/-- Loop invariant, escaping case: entered at counter `n` with `v = v_n`, the
loop returns at the first `j ≥ n` whose update escapes. -/
theorem mandelbrotLoop_first_escape {F : Type} [Zero F] [Add F] [Sub F] [Mul F] [CmplxAbs F]
    (z : Complex128 F) (d n : Nat) (hj : n + d < 255)
    (hesc : escaped (orbit z (n + d + 1)) = true)
    (hmin : ∀ m, n ≤ m → m < n + d → escaped (orbit z (m + 1)) = false) :
    mandelbrotLoop z (orbit z n) n =
      (Color.Gray (255 - 15 * (n + d) % 256), List.range' n (d + 1)) := by
  induction d generalizing n with
  | zero =>
    have h : escaped (orbit z n * orbit z n + z) = true := hesc
    rw [mandelbrotLoop_escape z _ n (by omega) h]
    rfl
  | succ d ih =>
    have h : escaped (orbit z n * orbit z n + z) = false := hmin n (le_refl n) (by omega)
    rw [mandelbrotLoop_continue z _ n (by omega) h]
    have e : n + 1 + d = n + (d + 1) := by omega
    have ih' := ih (n + 1) (by omega) (by rw [e]; exact hesc)
      (fun m h1 h2 => hmin m (by omega) (by omega))
    have ho : orbit z n * orbit z n + z = orbit z (n + 1) := rfl
    rw [ho, ih', e]
    rfl

/-- Loop invariant, non-escaping case: entered at counter `n` with `v = v_n`,
the loop runs to the iteration cap and returns `color.Black`. -/
theorem mandelbrotLoop_no_escape {F : Type} [Zero F] [Add F] [Sub F] [Mul F] [CmplxAbs F]
    (z : Complex128 F) (d n : Nat) (hd : n + d = 255)
    (hno : ∀ m, n ≤ m → m < 255 → escaped (orbit z (m + 1)) = false) :
    mandelbrotLoop z (orbit z n) n = (Black, List.range' n d) := by
  induction d generalizing n with
  | zero =>
    rw [mandelbrotLoop_exit z _ n (by omega)]
    rfl
  | succ d ih =>
    have h : escaped (orbit z n * orbit z n + z) = false := hno n (le_refl n) (by omega)
    rw [mandelbrotLoop_continue z _ n (by omega) h]
    have ho : orbit z n * orbit z n + z = orbit z (n + 1) := rfl
    rw [ho, ih (n + 1) (by omega) (fun m h1 h2 => hno m (by omega) h2)]
    rfl

/-- The counters of a run from `n ≤ 255` are `n, n+1, …` and stay below 255,
whatever the arithmetic does. -/
theorem mandelbrotLoop_counters {F : Type} [Add F] [Sub F] [Mul F] [CmplxAbs F]
    (z : Complex128 F) (d n : Nat) (v : Complex128 F) (hd : n + d = 255) :
    ∃ k, k ≤ d ∧ (mandelbrotLoop z v n).2 = List.range' n k := by
  induction d generalizing n v with
  | zero =>
    refine ⟨0, le_refl 0, ?_⟩
    rw [mandelbrotLoop_exit z v n (by omega)]
    rfl
  | succ d ih =>
    cases h : escaped (v * v + z) with
    | true =>
      refine ⟨1, by omega, ?_⟩
      rw [mandelbrotLoop_escape z v n (by omega) h]
      rfl
    | false =>
      obtain ⟨k, hk, hr⟩ := ih (n + 1) (v * v + z) (by omega)
      refine ⟨k + 1, by omega, ?_⟩
      rw [mandelbrotLoop_continue z v n (by omega) h]
      simp only [hr]
      rfl

/-- The stored byte `255 - (15 * n mod 256)` is `(255 - 15 * n) mod 256`. -/
theorem intensity_eq (n : Nat) :
    ((255 - 15 * n % 256 : Nat) : Int) = (255 - 15 * (n : Int)) % 256 := by
  omega

/-- C3. Escape-time evaluator result: with `v_0 = 0`, `v_(k+1) = v_k² + z`,
if `n` is the least index in `0..254` with `|v_(n+1)| > 2` then
`mandelbrot z` is the gray colour of intensity `(255 - 15 * n) mod 256`
(wrap-around, no clamping); if there is no such index, `mandelbrot z` is
`color.Black`, of intensity `0`. -/
theorem mandelbrot_escape_time {F : Type} [Zero F] [Add F] [Sub F] [Mul F] [CmplxAbs F]
    (z : Complex128 F) :
    (∀ n : Nat, n < 255 → escaped (orbit z (n + 1)) = true →
      (∀ m, m < n → escaped (orbit z (m + 1)) = false) →
      ∃ Y : Nat, mandelbrot z = Color.Gray Y ∧ (mandelbrot z).grayY = Y ∧
        (Y : Int) = (255 - 15 * (n : Int)) % 256) ∧
    ((∀ n : Nat, n < 255 → escaped (orbit z (n + 1)) = false) →
      mandelbrot z = Black ∧ (mandelbrot z).grayY = 0) := by
  constructor
  · intro n hn hesc hmin
    have h := mandelbrotLoop_first_escape z n 0 (by omega) (by simpa using hesc)
      (fun m _ h2 => hmin m (by omega))
    have hm : mandelbrot z = Color.Gray (255 - 15 * n % 256) := by
      unfold mandelbrot
      have : (orbit z 0 : Complex128 F) = 0 := rfl
      rw [← this, h]
      simp
    exact ⟨_, hm, by rw [hm]; rfl, by omega⟩
  · intro hno
    have h := mandelbrotLoop_no_escape z 255 0 (by omega) (fun m _ h2 => hno m h2)
    have hm : mandelbrot z = Black := by
      unfold mandelbrot
      have : (orbit z 0 : Complex128 F) = 0 := rfl
      rw [← this, h]
    exact ⟨hm, by rw [hm]; rfl⟩

/-- C9. Bounded evaluation: for every input `z` and every arithmetic, the
loop body of `mandelbrot` runs `k ≤ 255` times, with the counter values
`0, 1, …, k-1` in this order: the 8-bit counter stays in `0..254` and never
wraps. (`mandelbrot` itself is a total function: its loop is defined by
recursion on `iterations - n`.) -/
theorem mandelbrot_bounded {F : Type} [Zero F] [Add F] [Sub F] [Mul F] [CmplxAbs F]
    (z : Complex128 F) :
    ∃ k : Nat, k ≤ 255 ∧ mandelbrotCounters z = List.range k ∧
      (mandelbrotCounters z).length = k ∧
      (∀ n ∈ mandelbrotCounters z, n ≤ 254 ∧ (n + 1) % 256 = n + 1) := by
  obtain ⟨k, hk, hr⟩ := mandelbrotLoop_counters z 255 0 0 (by omega)
  have hc : mandelbrotCounters z = List.range k := by
    unfold mandelbrotCounters
    rw [hr, List.range_eq_range']
  refine ⟨k, hk, hc, by rw [hc, List.length_range], ?_⟩
  intro n hn
  rw [hc, List.mem_range] at hn
  omega

/-! ### Complex arithmetic, unfolded -/

theorem Complex128.zero_def {F : Type} [Zero F] : (0 : Complex128 F) = ⟨0, 0⟩ := rfl

theorem Complex128.zero_re {F : Type} [Zero F] : (0 : Complex128 F).re = 0 := rfl

theorem Complex128.zero_im {F : Type} [Zero F] : (0 : Complex128 F).im = 0 := rfl

theorem Complex128.add_def {F : Type} [Add F] (a b : Complex128 F) :
    a + b = ⟨a.re + b.re, a.im + b.im⟩ := rfl

theorem Complex128.mul_def {F : Type} [Add F] [Sub F] [Mul F] (a b : Complex128 F) :
    a * b = ⟨a.re * b.re - a.im * b.im, a.re * b.im + a.im * b.re⟩ := rfl

theorem orbit_start {F : Type} [Zero F] [Add F] [Sub F] [Mul F] (z : Complex128 F) :
    orbit z 0 = 0 := rfl

theorem orbit_succ {F : Type} [Zero F] [Add F] [Sub F] [Mul F] (z : Complex128 F) (k : Nat) :
    orbit z (k + 1) = orbit z k * orbit z k + z := rfl

/-- Over the real numbers the exact escape test is the test
`Complex.abs v > 2` on the complex number `re + im * I`. -/
theorem absGtTwo_real_iff (a b : ℝ) :
    CmplxAbs.absGtTwo a b = true ↔ 2 < Complex.abs ⟨a, b⟩ := by
  have h : Complex.abs ⟨a, b⟩ = Real.sqrt (a * a + b * b) := by
    rw [Complex.abs_apply, Complex.normSq_mk]
  rw [h, Real.lt_sqrt (by norm_num)]
  simp only [CmplxAbs.absGtTwo, decide_eq_true_eq]
  norm_num

/-- Over exact arithmetic the orbit of `z = 0` stays at `0`. -/
theorem orbit_zero {K : Type} [LinearOrderedField K] (k : Nat) :
    orbit (⟨0, 0⟩ : Complex128 K) k = ⟨0, 0⟩ := by
  induction k with
  | zero => rfl
  | succ k ih =>
    show orbit (⟨0, 0⟩ : Complex128 K) k * orbit (⟨0, 0⟩ : Complex128 K) k + ⟨0, 0⟩ = ⟨0, 0⟩
    rw [ih]
    show (⟨0 * 0 - 0 * 0 + 0, 0 * 0 + 0 * 0 + 0⟩ : Complex128 K) = ⟨0, 0⟩
    simp

theorem escaped_zero {K : Type} [LinearOrderedField K] :
    escaped (⟨0, 0⟩ : Complex128 K) = false := by
  simp [escaped, CmplxAbs.absGtTwo]

theorem orbit_three_one {K : Type} [LinearOrderedField K] :
    orbit (⟨3, 0⟩ : Complex128 K) 1 = ⟨3, 0⟩ := by
  show (⟨0 * 0 - 0 * 0 + 3, 0 * 0 + 0 * 0 + 0⟩ : Complex128 K) = ⟨3, 0⟩
  simp

theorem escaped_three {K : Type} [LinearOrderedField K] :
    escaped (⟨3, 0⟩ : Complex128 K) = true := by
  simp [escaped, CmplxAbs.absGtTwo]
  norm_num

/-- C7. Known points of the evaluator over exact arithmetic: `mandelbrot(0)`
never escapes within the 255 iterations (the body runs for every counter
`0..254`) and returns black, intensity `0`; `mandelbrot(3+0i)` escapes on
iteration `n = 0` (the first update gives `v = 3`, `|v| > 2`), the body runs
once, and the result is intensity `255`. -/
theorem mandelbrot_known_points {K : Type} [LinearOrderedField K] :
    (mandelbrot (⟨0, 0⟩ : Complex128 K) = Black ∧
      (mandelbrot (⟨0, 0⟩ : Complex128 K)).grayY = 0 ∧
      mandelbrotCounters (⟨0, 0⟩ : Complex128 K) = List.range 255 ∧
      ∀ n : Nat, escaped (orbit (⟨0, 0⟩ : Complex128 K) (n + 1)) = false) ∧
    (mandelbrot (⟨3, 0⟩ : Complex128 K) = Color.Gray 255 ∧
      (mandelbrot (⟨3, 0⟩ : Complex128 K)).grayY = 255 ∧
      mandelbrotCounters (⟨3, 0⟩ : Complex128 K) = [0] ∧
      orbit (⟨3, 0⟩ : Complex128 K) 1 = ⟨3, 0⟩ ∧
      escaped (orbit (⟨3, 0⟩ : Complex128 K) 1) = true) := by
  have hz : ∀ n : Nat, escaped (orbit (⟨0, 0⟩ : Complex128 K) (n + 1)) = false := by
    intro n; rw [orbit_zero]; exact escaped_zero
  have h0 := mandelbrotLoop_no_escape (⟨0, 0⟩ : Complex128 K) 255 0 (by omega)
    (fun m _ _ => hz m)
  have h3e : escaped (orbit (⟨3, 0⟩ : Complex128 K) 1) = true := by
    rw [orbit_three_one]; exact escaped_three
  have h3 := mandelbrotLoop_first_escape (⟨3, 0⟩ : Complex128 K) 0 0 (by omega) h3e
    (fun m h1 h2 => by omega)
  have o0 : ∀ z : Complex128 K, (0 : Complex128 K) = orbit z 0 := fun _ => rfl
  refine ⟨⟨?_, ?_, ?_, hz⟩, ⟨?_, ?_, ?_, orbit_three_one, h3e⟩⟩
  · unfold mandelbrot; rw [o0 ⟨0, 0⟩, h0]
  · unfold mandelbrot; rw [o0 ⟨0, 0⟩, h0]; rfl
  · unfold mandelbrotCounters; rw [o0 ⟨0, 0⟩, h0, List.range_eq_range']
  · unfold mandelbrot; rw [o0 ⟨3, 0⟩, h3]
  · unfold mandelbrot; rw [o0 ⟨3, 0⟩, h3]; rfl
  · unfold mandelbrotCounters; rw [o0 ⟨3, 0⟩, h3]; rfl

theorem orbit_one (k : Nat) (hk : k < 3) :
    orbit (⟨1, 0⟩ : Complex128 ℚ) (k + 1) = ⟨(k : ℚ) * k + 1, 0⟩ := by
  interval_cases k <;>
    norm_num [orbit_succ, orbit_start, Complex128.zero_re, Complex128.zero_im,
      Complex128.add_def, Complex128.mul_def]

/-- Witness for C3 over `ℚ`: `z = 1` has `v_1 = 1`, `v_2 = 2`, `v_3 = 5`, so
the least escaping index is `n = 2` and the intensity is `225`; `z = 0` never
escapes and is black. -/
theorem mandelbrot_escape_time_witness :
    ((2 : Nat) < 255 ∧ escaped (orbit (⟨1, 0⟩ : Complex128 ℚ) (2 + 1)) = true ∧
      (∀ m, m < 2 → escaped (orbit (⟨1, 0⟩ : Complex128 ℚ) (m + 1)) = false) ∧
      ∃ Y : Nat, mandelbrot (⟨1, 0⟩ : Complex128 ℚ) = Color.Gray Y ∧
        (mandelbrot (⟨1, 0⟩ : Complex128 ℚ)).grayY = Y ∧
        (Y : Int) = (255 - 15 * ((2 : Nat) : Int)) % 256) ∧
    ((∀ n : Nat, n < 255 → escaped (orbit (⟨0, 0⟩ : Complex128 ℚ) (n + 1)) = false) ∧
      mandelbrot (⟨0, 0⟩ : Complex128 ℚ) = Black ∧
      (mandelbrot (⟨0, 0⟩ : Complex128 ℚ)).grayY = 0) := by
  have h1 : escaped (orbit (⟨1, 0⟩ : Complex128 ℚ) (2 + 1)) = true := by
    rw [orbit_one 2 (by decide)]
    norm_num [escaped, CmplxAbs.absGtTwo]
  have h2 : ∀ m, m < 2 → escaped (orbit (⟨1, 0⟩ : Complex128 ℚ) (m + 1)) = false := by
    intro m hm
    rw [orbit_one m (by omega)]
    interval_cases m <;> norm_num [escaped, CmplxAbs.absGtTwo]
  have h3 : ∀ n : Nat, n < 255 → escaped (orbit (⟨0, 0⟩ : Complex128 ℚ) (n + 1)) = false := by
    intro n _; rw [orbit_zero]; exact escaped_zero
  exact ⟨⟨by decide, h1, h2, (mandelbrot_escape_time _).1 2 (by decide) h1 h2⟩,
    ⟨h3, (mandelbrot_escape_time _).2 h3⟩⟩

/-! ### Renderer -/

theorem mem_intRange (a b y : Int) : y ∈ intRange a b ↔ a ≤ y ∧ y < b := by
  simp only [intRange, List.mem_map, List.mem_range]
  constructor
  · rintro ⟨k, hk, rfl⟩
    omega
  · rintro ⟨h1, h2⟩
    exact ⟨(y - a).toNat, by omega, by omega⟩

theorem Gray.Set_Rect (p : Gray) (x y : Int) (c : Color) : (p.Set x y c).Rect = p.Rect := by
  unfold Gray.Set
  split_ifs <;> rfl

theorem Gray.Set_Pix (p : Gray) (x y : Int) (c : Color) (x' y' : Int) :
    (p.Set x y c).Pix x' y' =
      if p.Rect.contains x y ∧ x' = x ∧ y' = y then c.grayY else p.Pix x' y' := by
  unfold Gray.Set
  by_cases h : p.Rect.contains x y
  · simp [h]
  · simp [h]

/-- Writing one row: the inner loop of `render` over a list of columns. -/
theorem foldl_Set_row (col : Int → Color) (y : Int) (xs : List Int) (img : Gray) :
    (xs.foldl (fun s x => s.Set x y (col x)) img).Rect = img.Rect ∧
    ∀ x' y', (xs.foldl (fun s x => s.Set x y (col x)) img).Pix x' y' =
      if y' = y ∧ x' ∈ xs ∧ img.Rect.contains x' y' then (col x').grayY
      else img.Pix x' y' := by
  induction xs generalizing img with
  | nil => simp
  | cons a t ih =>
    obtain ⟨hR, hP⟩ := ih (img.Set a y (col a))
    simp only [List.foldl_cons]
    refine ⟨by rw [hR, Gray.Set_Rect], ?_⟩
    intro x' y'
    rw [hP, Gray.Set_Rect, Gray.Set_Pix]
    by_cases hy : y' = y
    · subst hy
      by_cases hc : img.Rect.contains x' y'
      · by_cases hx : x' = a
        · subst hx
          simp [hc]
        · simp [hc, hx]
      · by_cases hx : x' = a
        · subst hx
          simp [hc]
        · simp [hc, hx]
    · simp [hy]

/-- Writing several rows: both loops of `render` over lists of rows and
columns, for any colour function. -/
theorem foldl_Set_rows (col : Int → Int → Color) (xs ys : List Int) (img : Gray) :
    (ys.foldl (fun s y => xs.foldl (fun s x => s.Set x y (col x y)) s) img).Rect = img.Rect ∧
    ∀ x' y', (ys.foldl (fun s y => xs.foldl (fun s x => s.Set x y (col x y)) s) img).Pix x' y' =
      if y' ∈ ys ∧ x' ∈ xs ∧ img.Rect.contains x' y' then (col x' y').grayY
      else img.Pix x' y' := by
  induction ys generalizing img with
  | nil => simp
  | cons b t ih =>
    obtain ⟨hR1, hP1⟩ := foldl_Set_row (fun x => col x b) b xs img
    obtain ⟨hR, hP⟩ := ih (xs.foldl (fun s x => s.Set x b (col x b)) img)
    simp only [List.foldl_cons]
    refine ⟨by rw [hR, hR1], ?_⟩
    intro x' y'
    rw [hP, hR1, hP1]
    by_cases hy : y' = b
    · subst hy
      by_cases hc : x' ∈ xs ∧ img.Rect.contains x' y'
      · simp [hc]
      · have hc' : ¬ (y' ∈ t ∧ x' ∈ xs ∧ img.Rect.contains x' y') := fun h => hc h.2
        have hc2 : ¬ (y' = y' ∧ x' ∈ xs ∧ img.Rect.contains x' y') := fun h => hc h.2
        have hc3 : ¬ (y' ∈ y' :: t ∧ x' ∈ xs ∧ img.Rect.contains x' y') :=
          fun h => hc h.2
        rw [if_neg hc', if_neg hc2, if_neg hc3]
    · simp [hy]

/-- What `render` leaves in the buffer: the rectangle is untouched, and a
pixel holds the gray byte of `mandelbrot` at its mapped coordinate if it lies
in the rows `[startRow, endRow)`, in the columns `[0, bounds[0])` and in the
image rectangle, and its old value otherwise. -/
theorem render_spec {F : Type} [Zero F] [Add F] [Sub F] [Mul F] [Div F] [IntCast F]
    [CmplxAbs F] (img : Gray) (bounds : Int × Int) (ul lr : Complex128 F)
    (startRow endRow : Int) :
    (render img bounds ul lr startRow endRow).Rect = img.Rect ∧
    ∀ x y, (render img bounds ul lr startRow endRow).Pix x y =
      if (startRow ≤ y ∧ y < endRow) ∧ (0 ≤ x ∧ x < bounds.1) ∧ img.Rect.contains x y then
        (mandelbrot (mapper bounds ul lr x y)).grayY
      else img.Pix x y := by
  obtain ⟨hR, hP⟩ := foldl_Set_rows (fun x y => mandelbrot (mapper bounds ul lr x y))
    (intRange 0 bounds.1) (intRange startRow endRow) img
  refine ⟨hR, ?_⟩
  intro x y
  have := hP x y
  simp only [mem_intRange] at this
  exact this

/-- C4. Band frame condition: `render` leaves the image rectangle as it is and
changes only pixels `(x, y)` with `0 ≤ x < bounds[0]` and
`startRow ≤ y < endRow`: every pixel outside that row range, and every pixel
with `x` outside `[0, bounds[0])`, has the same value after the call as
before it. -/
theorem render_frame {F : Type} [Zero F] [Add F] [Sub F] [Mul F] [Div F] [IntCast F]
    [CmplxAbs F] (img : Gray) (bounds : Int × Int) (ul lr : Complex128 F)
    (startRow endRow : Int) (x y : Int)
    (hout : ¬ ((0 ≤ x ∧ x < bounds.1) ∧ (startRow ≤ y ∧ y < endRow))) :
    (render img bounds ul lr startRow endRow).Rect = img.Rect ∧
    (render img bounds ul lr startRow endRow).Pix x y = img.Pix x y := by
  obtain ⟨hR, hP⟩ := render_spec img bounds ul lr startRow endRow
  refine ⟨hR, ?_⟩
  rw [hP]
  have : ¬ ((startRow ≤ y ∧ y < endRow) ∧ (0 ≤ x ∧ x < bounds.1) ∧ img.Rect.contains x y) :=
    fun h => hout ⟨h.2.1, h.1⟩
  rw [if_neg this]

/-- Witness for C4 over `ℚ`: rendering rows `[1, 3)` of a 4 by 4 buffer filled
with `7` leaves the pixel `(2, 3)` at `7`. -/
theorem render_frame_witness :
    ¬ (((0 : Int) ≤ 2 ∧ (2 : Int) < 4) ∧ ((1 : Int) ≤ 3 ∧ (3 : Int) < 3)) ∧
    (render ⟨⟨0, 0, 4, 4⟩, fun _ _ => 7⟩ (4, 4) (⟨-2, -1⟩ : Complex128 ℚ) ⟨1, 1⟩ 1 3).Rect
      = ⟨0, 0, 4, 4⟩ ∧
    (render ⟨⟨0, 0, 4, 4⟩, fun _ _ => 7⟩ (4, 4) (⟨-2, -1⟩ : Complex128 ℚ) ⟨1, 1⟩ 1 3).Pix 2 3
      = 7 :=
  ⟨by decide,
    render_frame ⟨⟨0, 0, 4, 4⟩, fun _ _ => 7⟩ (4, 4) (⟨-2, -1⟩ : Complex128 ℚ) ⟨1, 1⟩ 1 3 2 3
      (by decide)⟩

theorem Gray.ext_of (p q : Gray) (hR : p.Rect = q.Rect) (hP : ∀ x y, p.Pix x y = q.Pix x y) :
    p = q := by
  cases p with
  | mk pr pp =>
    cases q with
    | mk qr qp =>
      simp only at hR hP
      subst hR
      have : pp = qp := funext fun x => funext fun y => hP x y
      rw [this]

/-- What a sequence of `render` calls over a list of row ranges leaves in the
buffer. -/
theorem renderBands_spec {F : Type} [Zero F] [Add F] [Sub F] [Mul F] [Div F] [IntCast F]
    [CmplxAbs F] (bounds : Int × Int) (ul lr : Complex128 F) (l : List (Int × Int))
    (img : Gray) :
    (renderBands img bounds ul lr l).Rect = img.Rect ∧
    ∀ x y,
      (((∃ b ∈ l, inBand b y) ∧ (0 ≤ x ∧ x < bounds.1) ∧ img.Rect.contains x y) →
        (renderBands img bounds ul lr l).Pix x y =
          (mandelbrot (mapper bounds ul lr x y)).grayY) ∧
      (¬ ((∃ b ∈ l, inBand b y) ∧ (0 ≤ x ∧ x < bounds.1) ∧ img.Rect.contains x y) →
        (renderBands img bounds ul lr l).Pix x y = img.Pix x y) := by
  induction l generalizing img with
  | nil =>
    refine ⟨rfl, fun x y => ⟨?_, fun _ => rfl⟩⟩
    rintro ⟨⟨b, hb, _⟩, _⟩
    cases hb
  | cons a t ih =>
    obtain ⟨hR1, hP1⟩ := render_spec img bounds ul lr a.1 a.2
    obtain ⟨hR, hP⟩ := ih (render img bounds ul lr a.1 a.2)
    have hunf : renderBands img bounds ul lr (a :: t) =
        renderBands (render img bounds ul lr a.1 a.2) bounds ul lr t := rfl
    rw [hunf]
    refine ⟨by rw [hR, hR1], fun x y => ?_⟩
    obtain ⟨hin, hout⟩ := hP x y
    rw [hR1] at hin hout
    by_cases ht : (∃ b ∈ t, inBand b y) ∧ (0 ≤ x ∧ x < bounds.1) ∧ img.Rect.contains x y
    · refine ⟨fun _ => hin ht, fun hn => ?_⟩
      exfalso
      obtain ⟨⟨b, hb, hby⟩, h2⟩ := ht
      exact hn ⟨⟨b, List.mem_cons_of_mem _ hb, hby⟩, h2⟩
    · rw [hout ht, hP1]
      constructor
      · rintro ⟨⟨b, hb, hby⟩, h2⟩
        rcases List.mem_cons.1 hb with rfl | hb'
        · rw [if_pos ⟨hby, h2⟩]
        · exact absurd ⟨⟨b, hb', hby⟩, h2⟩ ht
      · intro hn
        have : ¬ ((a.1 ≤ y ∧ y < a.2) ∧ (0 ≤ x ∧ x < bounds.1) ∧ img.Rect.contains x y) :=
          fun h => hn ⟨⟨a, List.mem_cons_self _ _, h.1⟩, h.2⟩
        rw [if_neg this]

/-- Some band of `main` holds the row `y` exactly when `0 ≤ y < H`. -/
theorem exists_mem_bands_iff (H : Int) (hH : 0 ≤ H) (y : Int) :
    (∃ b ∈ bands H, inBand b y) ↔ (0 ≤ y ∧ y < H) := by
  constructor
  · rintro ⟨b, hb, hy⟩
    obtain ⟨i, hi, rfl⟩ := (mem_bands H b).1 hb
    exact band_subset H hH i hi y hy
  · rintro ⟨h0, h1⟩
    obtain ⟨i, hi, hy⟩ := exists_band H hH y h0 h1
    exact ⟨_, (mem_bands H _).2 ⟨i, hi, rfl⟩, hy⟩

/-- C2. Parallel/sequential equivalence: for every width, every height `≥ 0`,
every viewport and every initial buffer, running `render` on the eight bands
of `main` one after the other, in any order `l` of the eight bands, gives the
same buffer (same rectangle, same value at every pixel) as the single call
`render(img, bounds, upperLeft, lowerRight, 0, height)`. -/
theorem renderBands_eq_render {F : Type} [Zero F] [Add F] [Sub F] [Mul F] [Div F] [IntCast F]
    [CmplxAbs F] (img : Gray) (width height : Int) (ul lr : Complex128 F)
    (hH : 0 ≤ height) (l : List (Int × Int)) (hl : l.Perm (bands height)) :
    renderBands img (width, height) ul lr l = render img (width, height) ul lr 0 height := by
  obtain ⟨hR, hP⟩ := renderBands_spec (width, height) ul lr l img
  obtain ⟨hR1, hP1⟩ := render_spec img (width, height) ul lr 0 height
  apply Gray.ext_of
  · rw [hR, hR1]
  · intro x y
    have hiff : (∃ b ∈ l, inBand b y) ↔ (0 ≤ y ∧ y < height) := by
      rw [← exists_mem_bands_iff height hH y]
      constructor
      · rintro ⟨b, hb, hy⟩; exact ⟨b, hl.mem_iff.1 hb, hy⟩
      · rintro ⟨b, hb, hy⟩; exact ⟨b, hl.mem_iff.2 hb, hy⟩
    rw [hP1]
    by_cases hc : (0 ≤ y ∧ y < height) ∧ (0 ≤ x ∧ x < (width, height).1) ∧ img.Rect.contains x y
    · rw [if_pos hc]
      exact (hP x y).1 ⟨hiff.2 hc.1, hc.2⟩
    · rw [if_neg hc]
      exact (hP x y).2 (fun h => hc ⟨hiff.1 h.1, h.2⟩)

/-- Witness for C2 over `ℚ`: height 19, the eight bands taken in reverse
order. -/
theorem renderBands_eq_render_witness :
    (0 : Int) ≤ 19 ∧ (bands 19).reverse.Perm (bands 19) ∧
    renderBands ⟨⟨0, 0, 5, 19⟩, fun _ _ => 0⟩ (5, 19) (⟨-2, -1⟩ : Complex128 ℚ) ⟨1, 1⟩
        (bands 19).reverse =
      render ⟨⟨0, 0, 5, 19⟩, fun _ _ => 0⟩ (5, 19) (⟨-2, -1⟩ : Complex128 ℚ) ⟨1, 1⟩ 0 19 :=
  ⟨by decide, List.reverse_perm _,
    renderBands_eq_render _ 5 19 _ _ (by decide) _ (List.reverse_perm _)⟩

/-! ### Coordinate mapper over exact arithmetic -/

/-- Linear interpolation with a parameter in `[0, 1]` stays between its end
points. -/
theorem interp_between {K : Type} [LinearOrderedField K] (a b t : K) (h0 : 0 ≤ t)
    (h1 : t ≤ 1) : min a b ≤ a + (b - a) * t ∧ a + (b - a) * t ≤ max a b := by
  rcases le_total a b with hab | hab
  · rw [min_eq_left hab, max_eq_right hab]
    constructor
    · nlinarith [mul_nonneg (sub_nonneg.2 hab) h0]
    · nlinarith [mul_nonneg (sub_nonneg.2 hab) (sub_nonneg.2 h1)]
  · rw [min_eq_right hab, max_eq_left hab]
    constructor
    · nlinarith [mul_nonneg (sub_nonneg.2 hab) (sub_nonneg.2 h1)]
    · nlinarith [mul_nonneg (sub_nonneg.2 hab) h0]

/-- The interpolation parameter `k / n` of a pixel index `0 ≤ k < n`. -/
theorem ratio_mem_unit {K : Type} [LinearOrderedField K] (k n : Int) (h0 : 0 ≤ k)
    (h1 : k < n) : (0 : K) ≤ (k : K) / (n : K) ∧ (k : K) / (n : K) ≤ 1 := by
  have hn : (0 : K) < (n : K) := by exact_mod_cast (lt_of_le_of_lt h0 h1)
  have hk : (0 : K) ≤ (k : K) := by exact_mod_cast h0
  have hkn : (k : K) ≤ (n : K) := by exact_mod_cast (le_of_lt h1)
  exact ⟨div_nonneg hk (le_of_lt hn), (div_le_one hn).2 hkn⟩

/-- C5. Mapper corner-exactness over exact arithmetic: for `width > 0` and
`height > 0` the pixel `(0, 0)` is mapped to `upperLeft`, and the pixel
`(width-1, height-1)` is mapped one pixel step short of `lowerRight` on each
axis: `lowerRight.re - re = (lowerRight.re - upperLeft.re) / width` and
`lowerRight.im - im = (lowerRight.im - upperLeft.im) / height`. -/
theorem mapper_corners {K : Type} [LinearOrderedField K] (width height : Int)
    (ul lr : Complex128 K) (hw : 0 < width) (hh : 0 < height) :
    mapper (width, height) ul lr 0 0 = ul ∧
    lr.re - (mapper (width, height) ul lr (width - 1) (height - 1)).re =
      (lr.re - ul.re) / (width : K) ∧
    lr.im - (mapper (width, height) ul lr (width - 1) (height - 1)).im =
      (lr.im - ul.im) / (height : K) := by
  have hw' : (width : K) ≠ 0 := by exact_mod_cast (ne_of_gt hw)
  have hh' : (height : K) ≠ 0 := by exact_mod_cast (ne_of_gt hh)
  refine ⟨?_, ?_, ?_⟩
  · cases ul with
    | mk a b => simp [mapper]
  · simp only [mapper, Int.cast_sub, Int.cast_one]
    field_simp
    ring
  · simp only [mapper, Int.cast_sub, Int.cast_one]
    field_simp
    ring

/-- Witness for C5 over `ℚ`: a 4 by 2 image of the viewport `(-2,-1)..(1,1)`. -/
theorem mapper_corners_witness :
    (0 : Int) < 4 ∧ (0 : Int) < 2 ∧
    mapper (4, 2) (⟨-2, -1⟩ : Complex128 ℚ) ⟨1, 1⟩ 0 0 = ⟨-2, -1⟩ ∧
    (1 : ℚ) - (mapper (4, 2) (⟨-2, -1⟩ : Complex128 ℚ) ⟨1, 1⟩ (4 - 1) (2 - 1)).re =
      (1 - -2) / ((4 : Int) : ℚ) ∧
    (1 : ℚ) - (mapper (4, 2) (⟨-2, -1⟩ : Complex128 ℚ) ⟨1, 1⟩ (4 - 1) (2 - 1)).im =
      (1 - -1) / ((2 : Int) : ℚ) :=
  ⟨by decide, by decide,
    mapper_corners 4 2 (⟨-2, -1⟩ : Complex128 ℚ) ⟨1, 1⟩ (by decide) (by decide)⟩

/-- C6. The mapper stays inside the viewport over exact arithmetic: for
`width > 0`, `height > 0`, any two corners in any orientation and every pixel
`(x, y)` with `0 ≤ x < width`, `0 ≤ y < height`, the mapped coordinate lies in
the closed rectangle spanned by `upperLeft` and `lowerRight`. (The bounds on
the pixel already give `width > 0` and `height > 0`.) -/
theorem mapper_in_viewport {K : Type} [LinearOrderedField K] (width height : Int)
    (ul lr : Complex128 K) (x y : Int)
    (hx0 : 0 ≤ x) (hx1 : x < width) (hy0 : 0 ≤ y) (hy1 : y < height) :
    (min ul.re lr.re ≤ (mapper (width, height) ul lr x y).re ∧
      (mapper (width, height) ul lr x y).re ≤ max ul.re lr.re) ∧
    (min ul.im lr.im ≤ (mapper (width, height) ul lr x y).im ∧
      (mapper (width, height) ul lr x y).im ≤ max ul.im lr.im) := by
  obtain ⟨tx0, tx1⟩ := @ratio_mem_unit K _ x width hx0 hx1
  obtain ⟨ty0, ty1⟩ := @ratio_mem_unit K _ y height hy0 hy1
  simp only [mapper, mul_div_assoc]
  exact ⟨interp_between _ _ _ tx0 tx1, interp_between _ _ _ ty0 ty1⟩

/-- Witness for C6 over `ℚ`: pixel `(3, 1)` of a 4 by 2 image whose viewport is
given with its corners swapped. -/
theorem mapper_in_viewport_witness :
    ((0 : Int) ≤ 3 ∧ (3 : Int) < 4 ∧ (0 : Int) ≤ 1 ∧ (1 : Int) < 2) ∧
    (min (1 : ℚ) (-2) ≤ (mapper (4, 2) (⟨1, 1⟩ : Complex128 ℚ) ⟨-2, -1⟩ 3 1).re ∧
      (mapper (4, 2) (⟨1, 1⟩ : Complex128 ℚ) ⟨-2, -1⟩ 3 1).re ≤ max (1 : ℚ) (-2)) ∧
    (min (1 : ℚ) (-1) ≤ (mapper (4, 2) (⟨1, 1⟩ : Complex128 ℚ) ⟨-2, -1⟩ 3 1).im ∧
      (mapper (4, 2) (⟨1, 1⟩ : Complex128 ℚ) ⟨-2, -1⟩ 3 1).im ≤ max (1 : ℚ) (-1)) :=
  ⟨by decide,
    mapper_in_viewport 4 2 (⟨1, 1⟩ : Complex128 ℚ) ⟨-2, -1⟩ 3 1 (by decide) (by decide)
      (by decide) (by decide)⟩

/-! ### Degenerate dimensions -/

theorem intRange_self (a : Int) : intRange a a = [] := by
  simp [intRange]

/-- With `bounds[0] = 0` the inner loop of `render` never runs its body. -/
theorem renderLoops_width_zero {σ : Type} (body : σ → Int → Int → σ) (h : Int)
    (startRow endRow : Int) (s : σ) :
    renderLoops body (0, h) startRow endRow s = s := by
  unfold renderLoops
  simp only [intRange_self, List.foldl_nil]
  induction intRange startRow endRow with
  | nil => rfl
  | cons a t ih => simp [ih]

/-- An empty row range: the outer loop of `render` never runs its body. -/
theorem renderLoops_rows_empty {σ : Type} (body : σ → Int → Int → σ) (bounds : Int × Int)
    (a : Int) (s : σ) : renderLoops body bounds a a s = s := by
  simp [renderLoops, intRange_self]

theorem bands_zero : bands 0 =
    [(0, 0), (0, 0), (0, 0), (0, 0), (0, 0), (0, 0), (0, 0), (0, 0)] := by
  decide

/-- Folding a step that changes nothing. -/
theorem foldl_id_of {α β : Type} (f : β → α → β) (l : List α) (s : β)
    (h : ∀ a ∈ l, ∀ t, f t a = t) : l.foldl f s = s := by
  induction l generalizing s with
  | nil => rfl
  | cons a t ih =>
    simp only [List.foldl_cons]
    rw [h a (List.mem_cons_self _ _)]
    exact ih s (fun b hb => h b (List.mem_cons_of_mem _ hb))

/-- The ghost log on a non-degenerate image: a 2 by 3 image has six pixels,
each with one division by `2` and one by `3`. -/
theorem mainDivisors_two_three :
    mainDivisors 2 3 = [2, 3, 2, 3, 2, 3, 2, 3, 2, 3, 2, 3] := by
  decide

/-- Counterexample to C10 as stated: for `width = 0, height = 5` and for
`width = 5, height = 0` the eight `render` calls of `main` evaluate no division
at all, so none with a zero divisor. -/
theorem mainDivisors_no_zero_division :
    ¬ ((0 : Int) ∈ mainDivisors 0 5) ∧ ¬ ((0 : Int) ∈ mainDivisors 5 0) := by
  decide

/-- C10, amended. Degenerate dimensions do not divide by zero: when `width`
is `0` or `height` is `0`, the eight `render` calls of `main` run the loop
body zero times. No mapper division is evaluated, and the buffer is returned
as it was. -/
theorem mainDivisors_degenerate {F : Type} [Zero F] [Add F] [Sub F] [Mul F] [Div F]
    [IntCast F] [CmplxAbs F] (width height : Int) (hdeg : width = 0 ∨ height = 0)
    (img : Gray) (ul lr : Complex128 F) :
    mainDivisors width height = [] ∧
    renderBands img (width, height) ul lr (bands height) = img := by
  rcases hdeg with hw | hh
  · subst hw
    constructor
    · unfold mainDivisors
      apply foldl_id_of
      intro b _ t
      exact renderLoops_width_zero _ _ _ _ _
    · unfold renderBands
      apply foldl_id_of
      intro b _ t
      exact renderLoops_width_zero _ _ _ _ _
  · subst hh
    constructor
    · unfold mainDivisors
      apply foldl_id_of
      intro b hb t
      have hb' : b = (0, 0) := by
        rw [bands_zero] at hb
        simpa using hb
      subst hb'
      exact renderLoops_rows_empty _ _ _ _
    · unfold renderBands
      apply foldl_id_of
      intro b hb t
      have hb' : b = (0, 0) := by
        rw [bands_zero] at hb
        simpa using hb
      subst hb'
      exact renderLoops_rows_empty _ _ _ _

/-- Witness for the amended C10 over `ℚ`: `width = 0`, `height = 5`. -/
theorem mainDivisors_degenerate_witness :
    ((0 : Int) = 0 ∨ (5 : Int) = 0) ∧ mainDivisors 0 5 = [] ∧
    renderBands ⟨⟨0, 0, 0, 5⟩, fun _ _ => 0⟩ (0, 5) (⟨-2, -1⟩ : Complex128 ℚ) ⟨1, 1⟩
      (bands 5) = ⟨⟨0, 0, 0, 5⟩, fun _ _ => 0⟩ :=
  ⟨Or.inl rfl,
    mainDivisors_degenerate 0 5 (Or.inl rfl) ⟨⟨0, 0, 0, 5⟩, fun _ _ => 0⟩
      (⟨-2, -1⟩ : Complex128 ℚ) ⟨1, 1⟩⟩

/-! ### Dimension parsing -/

theorem Split_ne_nil (l : List Char) (sep : Char) : Split l sep ≠ [] := by
  cases l with
  | nil => simp [Split]
  | cons c cs =>
    unfold Split
    split_ifs
    · simp
    · split <;> simp

/-- The number of parts is one more than the number of separators. -/
theorem Split_length (l : List Char) (sep : Char) :
    (Split l sep).length = l.count sep + 1 := by
  induction l with
  | nil => simp [Split]
  | cons c cs ih =>
    unfold Split
    by_cases h : c = sep
    · subst h
      simp [ih]
    · have hne : (c == sep) = false := by simpa using h
      rw [if_neg h, List.count_cons, hne]
      split
      · next p ps hp =>
        rw [hp] at ih
        simpa using ih
      · next hp => exact absurd hp (Split_ne_nil cs sep)

/-- With exactly two parts the outcome is decided by `Atoi` on the parts. -/
theorem parsePair_two (s : String) (sep : Char) (p0 p1 : List Char)
    (hp : Split s.toList sep = [p0, p1]) :
    parsePair s sep =
      match Atoi p0, Atoi p1 with
      | some x, some y => Except.ok (x, y)
      | _, _ => Except.error ParseError.invalidNumbers := by
  unfold parsePair
  rw [hp]

/-- Without exactly two parts `parsePair` panics with "invalid format". -/
theorem parsePair_not_two (s : String) (sep : Char)
    (hp : (Split s.toList sep).length ≠ 2) :
    parsePair s sep = Except.error ParseError.invalidFormat := by
  unfold parsePair
  split
  · next p0 p1 h =>
    rw [h] at hp
    exact absurd rfl hp
  · rfl

/-- C8. Dimension parsing fails exactly on malformed input: `parsePair s sep`
panics if and only if splitting `s` on the separator does not give exactly two
parts, or one of the two parts is rejected by `Atoi`; when there are exactly
two parts and `Atoi` accepts both, it returns the two parsed integers. In
particular `parsePair("100", 'x')` panics and `parsePair("100x100", 'x')`
returns `(100, 100)`. -/
theorem parsePair_fails_iff (s : String) (sep : Char) :
    ((∃ e, parsePair s sep = Except.error e) ↔
      ((Split s.toList sep).length ≠ 2 ∨
        ∃ p0 p1, Split s.toList sep = [p0, p1] ∧ (Atoi p0 = none ∨ Atoi p1 = none))) ∧
    (∀ p0 p1 x y, Split s.toList sep = [p0, p1] → Atoi p0 = some x → Atoi p1 = some y →
      parsePair s sep = Except.ok (x, y)) ∧
    (∃ e, parsePair "100" 'x' = Except.error e) ∧
    parsePair "100x100" 'x' = Except.ok (100, 100) := by
  refine ⟨⟨?_, ?_⟩, ?_, ⟨ParseError.invalidFormat, rfl⟩, rfl⟩
  · rintro ⟨e, he⟩
    by_cases hlen : (Split s.toList sep).length = 2
    · right
      match hs : Split s.toList sep, hlen with
      | [p0, p1], _ =>
        refine ⟨p0, p1, rfl, ?_⟩
        rw [parsePair_two s sep p0 p1 hs] at he
        cases h0 : Atoi p0 with
        | none => exact Or.inl rfl
        | some x =>
          cases h1 : Atoi p1 with
          | none => exact Or.inr rfl
          | some y =>
            rw [h0, h1] at he
            cases he
    · exact Or.inl hlen
  · rintro (hlen | ⟨p0, p1, hs, hno⟩)
    · exact ⟨_, parsePair_not_two s sep hlen⟩
    · refine ⟨ParseError.invalidNumbers, ?_⟩
      rw [parsePair_two s sep p0 p1 hs]
      rcases hno with h | h
      · rw [h]
      · rw [h]
        cases Atoi p0 <;> rfl
  · intro p0 p1 x y hp h0 h1
    rw [parsePair_two s sep p0 p1 hp, h0, h1]

/-- Witness for C8: `"12x-7"` splits into `"12"` and `"-7"`, both accepted. -/
theorem parsePair_fails_iff_witness :
    Split "12x-7".toList 'x' = ["12".toList, "-7".toList] ∧
    Atoi "12".toList = some 12 ∧ Atoi "-7".toList = some (-7) ∧
    parsePair "12x-7" 'x' = Except.ok (12, -7) :=
  ⟨rfl, rfl, rfl, (parsePair_fails_iff "12x-7" 'x').2.1 _ _ 12 (-7) rfl rfl rfl⟩

/-- The truncated quotient `height / 8` in terms of floor division. -/
theorem rowsPerBand_neg (H : Int) (hH : H < 0) : rowsPerBand H = -((-H) / 8) := by
  unfold rowsPerBand
  have h := Int.neg_tdiv (-H) 8
  rw [neg_neg] at h
  rw [h, Int.tdiv_eq_ediv (by omega) (by decide)]

/-- The band arithmetic of `main` stays inside the signed 64-bit range for
every 64-bit `height`: neither `i * rowsPerBand` nor `(i + 1) * rowsPerBand`
overflows for `i = 0..7`. -/
theorem bands_in_int64 (H : Int) (hlo : -(2 : Int) ^ 63 ≤ H) (hhi : H < (2 : Int) ^ 63)
    (i : Nat) (hi : i < 8) :
    (-(2 : Int) ^ 63 ≤ (i : Int) * rowsPerBand H ∧ (i : Int) * rowsPerBand H < (2 : Int) ^ 63) ∧
    (-(2 : Int) ^ 63 ≤ ((i : Int) + 1) * rowsPerBand H ∧
      ((i : Int) + 1) * rowsPerBand H < (2 : Int) ^ 63) := by
  norm_num at hlo hhi ⊢
  rcases lt_or_le H 0 with hneg | hpos
  · rw [rowsPerBand_neg H hneg]
    interval_cases i <;> norm_num <;> omega
  · rw [rowsPerBand_eq_ediv H hpos]
    interval_cases i <;> norm_num <;> omega

/-! ### Program entry -/

/-- A list of length five, spelled out. -/
theorem length_five {α : Type} (l : List α) (h : l.length = 5) :
    ∃ a b c d e, l = [a, b, c, d, e] := by
  match l, h with
  | [a, b, c, d, e], _ => exact ⟨a, b, c, d, e, rfl⟩

/-- With five entries in `os.Args` the run starts with the call of
`parsePair` on `os.Args[2]` and contains no `Println` and no `Exit` step. -/
theorem main_five {F : Type} [Zero F] [Add F] [Sub F] [Mul F] [Div F] [IntCast F]
    [CmplxAbs F] (w : World F) (a0 output boundsStr ulStr lrStr : String) :
    (∃ rest, main w [a0, output, boundsStr, ulStr, lrStr] = Event.ParsePair boundsStr :: rest) ∧
    (∀ line, Event.Println line ∉ main w [a0, output, boundsStr, ulStr, lrStr]) ∧
    (∀ status, Event.Exit status ∉ main w [a0, output, boundsStr, ulStr, lrStr]) := by
  have hmain : main w [a0, output, boundsStr, ulStr, lrStr] =
      Event.ParsePair boundsStr ::
      match parsePair boundsStr 'x' with
      | Except.error _ => [Event.Panic]
      | Except.ok (width, height) =>
        Event.ParseComplex ulStr ::
        match parseComplex w ulStr with
        | Except.error _ => [Event.Panic]
        | Except.ok upperLeft =>
          Event.ParseComplex lrStr ::
          match parseComplex w lrStr with
          | Except.error _ => [Event.Panic]
          | Except.ok lowerRight =>
            Event.NewGray (Rect 0 0 width height) ::
            match w.NewGray (Rect 0 0 width height) with
            | none => [Event.Panic]
            | some img =>
              (bands height).map (fun b => Event.Render b.1 b.2) ++
              Event.Create output ::
              (if w.Create output then
                [Event.Encode
                  (renderBands img (width, height) upperLeft lowerRight (bands height)),
                  Event.Close]
              else [Event.Panic]) := by
    simp [main]
  rw [hmain]
  refine ⟨⟨_, rfl⟩, ?_, ?_⟩
  · intro line
    cases h1 : parsePair boundsStr 'x' with
    | error e => simp
    | ok p =>
      obtain ⟨width, height⟩ := p
      cases h2 : parseComplex w ulStr with
      | error e => simp
      | ok ul =>
        cases h3 : parseComplex w lrStr with
        | error e => simp
        | ok lr =>
          cases h4 : w.NewGray (Rect 0 0 width height) with
          | none => simp [h4]
          | some img =>
            cases h5 : w.Create output <;> simp [h4]
  · intro status
    cases h1 : parsePair boundsStr 'x' with
    | error e => simp
    | ok p =>
      obtain ⟨width, height⟩ := p
      cases h2 : parseComplex w ulStr with
      | error e => simp
      | ok ul =>
        cases h3 : parseComplex w lrStr with
        | error e => simp
        | ok lr =>
          cases h4 : w.NewGray (Rect 0 0 width height) with
          | none => simp [h4]
          | some img =>
            cases h5 : w.Create output <;> simp [h4]

/-- C11. Usage error: for every argument vector with `len(os.Args) ≠ 5` (the
number of positional arguments is not 4) the run of `main` consists of
printing the usage line to standard output and exiting with status `1`, and of
nothing else: no parsing, no rendering, no file creation. With
`len(os.Args) = 5` the usage branch is not taken: the run prints nothing,
never calls `os.Exit`, and starts with `parsePair` on `os.Args[2]`. -/
theorem main_usage {F : Type} [Zero F] [Add F] [Sub F] [Mul F] [Div F] [IntCast F]
    [CmplxAbs F] (w : World F) (args : List String) :
    (args.length ≠ 5 → main w args = [Event.Println usage, Event.Exit 1]) ∧
    (args.length = 5 →
      (∃ rest, main w args = Event.ParsePair (args.getD 2 "") :: rest) ∧
      (∀ line, Event.Println line ∉ main w args) ∧
      (∀ status, Event.Exit status ∉ main w args)) := by
  constructor
  · intro h
    unfold main
    rw [if_pos h]
  · intro h
    obtain ⟨a, b, c, d, e, rfl⟩ := length_five args h
    exact main_five w a b c d e

/-- Witness for C11: the usage branch for a bare program name, and a run
with four positional arguments. -/
theorem main_usage_witness :
    (["mandelbrot"].length ≠ 5 ∧
      main (⟨fun _ => none, fun _ => none, fun _ => false⟩ : World ℚ) ["mandelbrot"] =
        [Event.Println usage, Event.Exit 1]) ∧
    (["mandelbrot", "out.png", "100", "-2,-1", "1,1"].length = 5 ∧
      ∀ status, Event.Exit status ∉
        main (⟨fun _ => none, fun _ => none, fun _ => false⟩ : World ℚ)
          ["mandelbrot", "out.png", "100", "-2,-1", "1,1"]) :=
  ⟨⟨by decide, (main_usage _ _).1 (by decide)⟩,
    ⟨by decide, ((main_usage _ _).2 (by decide)).2.2⟩⟩

/-! ### Band sizes -/

/-- The number of rows a loop `for y := a; y < b; y++` visits. -/
theorem intRange_length (a b : Int) : (intRange a b).length = (b - a).toNat := by
  simp [intRange]

/-- C12. Band sizes: for every height `H ≥ 0` each of the first seven bands of
`main` has exactly `H / 8` rows and the last band has exactly
`H - 7 * (H / 8)` rows, which is at least `H / 8` and at most `H / 8 + 7`; for
`H < 8` the first seven bands are empty and the last band is all of
`[0, H)`. -/
theorem bands_sizes (H : Int) (hH : 0 ≤ H) :
    (∀ i : Nat, i < 7 → ∃ b, (bands H)[i]? = some b ∧ b.2 - b.1 = H / 8 ∧
      ((intRange b.1 b.2).length : Int) = H / 8) ∧
    (∃ b, (bands H)[7]? = some b ∧ b.2 - b.1 = H - 7 * (H / 8) ∧
      ((intRange b.1 b.2).length : Int) = H - 7 * (H / 8) ∧
      H / 8 ≤ b.2 - b.1 ∧ b.2 - b.1 ≤ H / 8 + 7) ∧
    (H < 8 →
      (∀ i : Nat, i < 7 → ∃ b, (bands H)[i]? = some b ∧ intRange b.1 b.2 = []) ∧
      (bands H)[7]? = some (0, H)) := by
  refine ⟨?_, ?_, ?_⟩
  · intro i hi
    refine ⟨_, bands_getElem? H i (by omega), ?_⟩
    rw [band_eq H hH, intRange_length]
    have h7 : ¬ ((i : Int) = 7) := by omega
    simp only [if_neg h7]
    constructor
    · ring
    · have : ((i : Int) + 1) * (H / 8) - (i : Int) * (H / 8) = H / 8 := by ring
      rw [this]
      omega
  · refine ⟨_, bands_getElem? H 7 (by omega), ?_⟩
    rw [band_eq H hH, intRange_length]
    simp only [Nat.cast_ofNat, if_true]
    refine ⟨trivial, ?_, ?_, ?_⟩ <;> omega
  · intro h8
    have hr : H / 8 = 0 := by omega
    constructor
    · intro i hi
      refine ⟨_, bands_getElem? H i (by omega), ?_⟩
      rw [band_eq H hH, hr]
      have h7 : ¬ ((i : Int) = 7) := by omega
      simp only [if_neg h7, mul_zero]
      exact intRange_self 0
    · rw [bands_getElem? H 7 (by omega), band_eq H hH, hr]
      simp

/-- Witness for C12: at height 19 seven bands of 2 rows and a last one of 5;
at height 5 the last band is `[0, 5)`. -/
theorem bands_sizes_witness :
    (0 : Int) ≤ 19 ∧
    (∀ i : Nat, i < 7 → ∃ b, (bands 19)[i]? = some b ∧ b.2 - b.1 = 19 / 8 ∧
      ((intRange b.1 b.2).length : Int) = 19 / 8) ∧
    (∃ b, (bands 19)[7]? = some b ∧ b.2 - b.1 = 19 - 7 * (19 / 8) ∧
      ((intRange b.1 b.2).length : Int) = 19 - 7 * (19 / 8) ∧
      (19 : Int) / 8 ≤ b.2 - b.1 ∧ b.2 - b.1 ≤ 19 / 8 + 7) ∧
    ((0 : Int) ≤ 5 ∧ (5 : Int) < 8 ∧ (bands 5)[7]? = some (0, 5)) :=
  ⟨by decide, (bands_sizes 19 (by decide)).1, (bands_sizes 19 (by decide)).2.1,
    by decide, by decide, ((bands_sizes 5 (by decide)).2.2 (by decide)).2⟩

/-! ### Exterior and interior points over exact arithmetic -/

/-- The exact escape test in terms of the squared magnitude. -/
theorem escaped_iff_normSq {K : Type} [LinearOrderedField K] (v : Complex128 K) :
    escaped v = true ↔ 4 < normSq v := by
  simp [escaped, normSq, CmplxAbs.absGtTwo]

/-- One update keeps the disc of radius `1/2`: if `|v| ≤ 1/2` and `|z| ≤ 1/4`
then `|v² + z| ≤ 1/2`, stated with squared magnitudes. -/
theorem normSq_step {K : Type} [LinearOrderedField K] (v z : Complex128 K)
    (hv : normSq v ≤ 1 / 4) (hz : normSq z ≤ 1 / 16) : normSq (v * v + z) ≤ 1 / 4 := by
  cases v with
  | mk a b =>
    cases z with
    | mk c d =>
      simp only [normSq, Complex128.add_def, Complex128.mul_def] at hv hz ⊢
      have hs0 : 0 ≤ a * a + b * b := add_nonneg (mul_self_nonneg a) (mul_self_nonneg b)
      have hz0 : 0 ≤ c * c + d * d := add_nonneg (mul_self_nonneg c) (mul_self_nonneg d)
      have h1 : (a * a - b * b) * (a * a - b * b) + (a * b + b * a) * (a * b + b * a)
          = (a * a + b * b) * (a * a + b * b) := by ring
      have h2 : (a * a + b * b) * (a * a + b * b) ≤ 1 / 16 := by
        have := mul_le_mul hv hv hs0 (by norm_num : (0 : K) ≤ 1 / 4)
        linarith
      have h3 : ((a * a - b * b) * c + (a * b + b * a) * d) *
            ((a * a - b * b) * c + (a * b + b * a) * d)
          ≤ ((a * a + b * b) * (a * a + b * b)) * (c * c + d * d) := by
        nlinarith [mul_self_nonneg ((a * a - b * b) * d - (a * b + b * a) * c)]
      have h4 : ((a * a + b * b) * (a * a + b * b)) * (c * c + d * d) ≤ 1 / 256 := by
        have := mul_le_mul h2 hz hz0 (by norm_num : (0 : K) ≤ 1 / 16)
        linarith
      have h5 : (a * a - b * b) * c + (a * b + b * a) * d ≤ 1 / 16 := by
        by_contra hcon
        have hlt : 1 / 16 < (a * a - b * b) * c + (a * b + b * a) * d := lt_of_not_le hcon
        have := mul_lt_mul hlt (le_of_lt hlt) (by norm_num : (0 : K) < 1 / 16)
          (le_of_lt (lt_trans (by norm_num : (0 : K) < 1 / 16) hlt))
        linarith
      nlinarith

/-- The orbit of a point with `|z| ≤ 1/4` stays in the disc of radius `1/2`. -/
theorem orbit_bounded {K : Type} [LinearOrderedField K] (z : Complex128 K)
    (hz : normSq z ≤ 1 / 16) (k : Nat) : normSq (orbit z k) ≤ 1 / 4 := by
  induction k with
  | zero =>
    simp only [orbit_start, normSq, Complex128.zero_re, Complex128.zero_im]
    norm_num
  | succ k ih =>
    rw [orbit_succ]
    exact normSq_step _ _ ih hz

/-- C14. Points near the origin are black, over exact arithmetic: for every
`z` with `|z| ≤ 1/4` (that is `|z|² ≤ 1/16`) the orbit `v_0 = 0`,
`v_(k+1) = v_k² + z` satisfies `|v_k| ≤ 1/2` (that is `|v_k|² ≤ 1/4`) for all
`k`, so the escape test fails at every step, the loop of `mandelbrot` runs all
255 iterations, and the result is `color.Black`, intensity `0`. -/
theorem mandelbrot_near_origin {K : Type} [LinearOrderedField K] (z : Complex128 K)
    (hz : normSq z ≤ 1 / 16) :
    (∀ k : Nat, normSq (orbit z k) ≤ 1 / 4) ∧
    (∀ k : Nat, escaped (orbit z k) = false) ∧
    mandelbrotCounters z = List.range 255 ∧
    mandelbrot z = Black ∧ (mandelbrot z).grayY = 0 := by
  have hb := orbit_bounded z hz
  have he : ∀ k : Nat, escaped (orbit z k) = false := by
    intro k
    cases h : escaped (orbit z k) with
    | false => rfl
    | true =>
      have h4 := (escaped_iff_normSq _).1 h
      have := hb k
      exfalso
      linarith
  have h := mandelbrotLoop_no_escape z 255 0 (by omega) (fun m _ _ => he (m + 1))
  have o0 : (0 : Complex128 K) = orbit z 0 := rfl
  refine ⟨hb, he, ?_, ?_, ?_⟩
  · unfold mandelbrotCounters; rw [o0, h, List.range_eq_range']
  · unfold mandelbrot; rw [o0, h]
  · unfold mandelbrot; rw [o0, h]; rfl

/-- Witness for C14 over `ℚ`: `z = 1/8 + i/8`, with `|z|² = 1/32`. -/
theorem mandelbrot_near_origin_witness :
    normSq (⟨1 / 8, 1 / 8⟩ : Complex128 ℚ) ≤ 1 / 16 ∧
    mandelbrot (⟨1 / 8, 1 / 8⟩ : Complex128 ℚ) = Black ∧
    (mandelbrot (⟨1 / 8, 1 / 8⟩ : Complex128 ℚ)).grayY = 0 :=
  ⟨by norm_num [normSq],
    (mandelbrot_near_origin (⟨1 / 8, 1 / 8⟩ : Complex128 ℚ) (by norm_num [normSq])).2.2.2⟩

/-- Over the real numbers `normSq` is the square of `Complex.abs`, so
`|z| ≤ r` is `normSq z ≤ r²` for `r ≥ 0`. -/
theorem normSq_real_eq (a b : ℝ) :
    normSq (⟨a, b⟩ : Complex128 ℝ) = Complex.abs ⟨a, b⟩ ^ 2 := by
  rw [Complex.sq_abs, Complex.normSq_mk]
  rfl

/-! ### Intensities of escaping points -/

/-- The colour returned on an escape at counter `n`. -/
theorem escapeIntensity_eq (n : Nat) : escapeIntensity n = 255 - 15 * n % 256 := by
  unfold escapeIntensity contrast
  omega

/-- A point whose first escape is at iteration `n` gets the gray
`escapeIntensity n`. -/
theorem mandelbrot_of_first_escape {F : Type} [Zero F] [Add F] [Sub F] [Mul F] [CmplxAbs F]
    (z : Complex128 F) (n : Nat) (hn : n < 255) (hesc : escaped (orbit z (n + 1)) = true)
    (hmin : ∀ m, m < n → escaped (orbit z (m + 1)) = false) :
    mandelbrot z = Color.Gray (escapeIntensity n) := by
  have h := mandelbrotLoop_first_escape z n 0 (by omega) (by simpa using hesc)
    (fun m _ h2 => hmin m (by omega))
  have o0 : (0 : Complex128 F) = orbit z 0 := rfl
  unfold mandelbrot
  rw [o0, h, escapeIntensity_eq]
  simp

/-- A point that never escapes within the 255 iterations gets `color.Black`. -/
theorem mandelbrot_of_no_escape {F : Type} [Zero F] [Add F] [Sub F] [Mul F] [CmplxAbs F]
    (z : Complex128 F) (hno : ∀ m, m < 255 → escaped (orbit z (m + 1)) = false) :
    mandelbrot z = Black := by
  have h := mandelbrotLoop_no_escape z 255 0 (by omega) (fun m _ h2 => hno m h2)
  have o0 : (0 : Complex128 F) = orbit z 0 := rfl
  unfold mandelbrot
  rw [o0, h]

/-- The intensity is `0` only for the counter `17`. -/
theorem escapeIntensity_eq_zero_iff (n : Nat) (hn : n < 255) :
    escapeIntensity n = 0 ↔ n = 17 := by
  rw [escapeIntensity_eq]
  omega

/-- The intensity map is injective on the counters `0..254`. -/
theorem escapeIntensity_injective (n m : Nat) (hn : n < 255) (hm : m < 255)
    (h : escapeIntensity n = escapeIntensity m) : n = m := by
  rw [escapeIntensity_eq, escapeIntensity_eq] at h
  omega

/-- C16. Black does not imply in-set: for a point `z` whose first escape
happens at iteration `n` in `0..254`, the intensity returned by `mandelbrot`
is `(255 - 15 * n) mod 256`, and it is `0` if and only if `n = 17`; so a point
`z` that escapes at iteration 17 gets the same stored intensity `0` as a
point `z0` that never escapes. -/
theorem mandelbrot_black_iff {F : Type} [Zero F] [Add F] [Sub F] [Mul F] [CmplxAbs F]
    (z z0 : Complex128 F) (n : Nat) (hn : n < 255)
    (hesc : escaped (orbit z (n + 1)) = true)
    (hmin : ∀ m, m < n → escaped (orbit z (m + 1)) = false)
    (hno : ∀ m, m < 255 → escaped (orbit z0 (m + 1)) = false) :
    (((mandelbrot z).grayY : Int) = (255 - 15 * (n : Int)) % 256) ∧
    ((mandelbrot z).grayY = 0 ↔ n = 17) ∧
    (n = 17 → (mandelbrot z).grayY = (mandelbrot z0).grayY) := by
  have hz : (mandelbrot z).grayY = escapeIntensity n := by
    rw [mandelbrot_of_first_escape z n hn hesc hmin]
    rfl
  have hz0 : (mandelbrot z0).grayY = 0 := by
    rw [mandelbrot_of_no_escape z0 hno]
    rfl
  refine ⟨?_, ?_, ?_⟩
  · rw [hz, escapeIntensity_eq]
    omega
  · rw [hz]
    exact escapeIntensity_eq_zero_iff n hn
  · intro h17
    rw [hz, hz0]
    exact (escapeIntensity_eq_zero_iff n hn).2 h17

/-- C17. The escape iteration is recoverable from the intensity: two points
whose first escapes happen at different iterations `n1 ≠ n2` in `0..254` get
different intensities, i.e. `n ↦ (255 - 15 * n) mod 256` is injective on
`0..254`; the intensity is not decreasing in `n`: it is `0` at `n = 17` and
`241` at `n = 18`. -/
theorem mandelbrot_intensity_injective {F : Type} [Zero F] [Add F] [Sub F] [Mul F]
    [CmplxAbs F] (z1 z2 : Complex128 F) (n1 n2 : Nat) (h1 : n1 < 255) (h2 : n2 < 255)
    (hesc1 : escaped (orbit z1 (n1 + 1)) = true)
    (hmin1 : ∀ m, m < n1 → escaped (orbit z1 (m + 1)) = false)
    (hesc2 : escaped (orbit z2 (n2 + 1)) = true)
    (hmin2 : ∀ m, m < n2 → escaped (orbit z2 (m + 1)) = false)
    (hne : n1 ≠ n2) :
    (mandelbrot z1).grayY ≠ (mandelbrot z2).grayY ∧
    mandelbrot z1 ≠ mandelbrot z2 ∧
    (∀ a b : Nat, a < 255 → b < 255 →
      (255 - 15 * (a : Int)) % 256 = (255 - 15 * (b : Int)) % 256 → a = b) ∧
    escapeIntensity 17 = 0 ∧ escapeIntensity 18 = 241 := by
  have e1 : mandelbrot z1 = Color.Gray (escapeIntensity n1) :=
    mandelbrot_of_first_escape z1 n1 h1 hesc1 hmin1
  have e2 : mandelbrot z2 = Color.Gray (escapeIntensity n2) :=
    mandelbrot_of_first_escape z2 n2 h2 hesc2 hmin2
  have hY : (mandelbrot z1).grayY ≠ (mandelbrot z2).grayY := by
    rw [e1, e2]
    intro h
    exact hne (escapeIntensity_injective n1 n2 h1 h2 h)
  refine ⟨hY, fun h => hY (by rw [h]), ?_, by decide, by decide⟩
  intro a b ha hb hab
  omega

/-! ### A point that escapes at iteration 17 -/

/-- On the real axis the orbit stays real. -/
theorem orbit_axis_im {K : Type} [LinearOrderedField K] (c : K) (k : Nat) :
    (orbit (⟨c, 0⟩ : Complex128 K) k).im = 0 := by
  induction k with
  | zero => rfl
  | succ k ih =>
    rw [orbit_succ]
    simp [Complex128.add_def, Complex128.mul_def, ih]

/-- On the real axis the orbit is the real recurrence `x ↦ x² + c`. -/
theorem orbit_axis_re {K : Type} [LinearOrderedField K] (c : K) (k : Nat) :
    (orbit (⟨c, 0⟩ : Complex128 K) (k + 1)).re =
      (orbit (⟨c, 0⟩ : Complex128 K) k).re * (orbit (⟨c, 0⟩ : Complex128 K) k).re + c := by
  rw [orbit_succ]
  simp [Complex128.add_def, Complex128.mul_def, orbit_axis_im]

/-- One step of interval bounds along a real orbit. -/
theorem orbit_axis_step {K : Type} [LinearOrderedField K] (c : K) (k : Nat)
    (L U L2 U2 : K) (hL : 0 ≤ L)
    (hx : L ≤ (orbit (⟨c, 0⟩ : Complex128 K) k).re ∧
      (orbit (⟨c, 0⟩ : Complex128 K) k).re ≤ U)
    (h1 : L2 ≤ L * L + c) (h2 : U * U + c ≤ U2) :
    L2 ≤ (orbit (⟨c, 0⟩ : Complex128 K) (k + 1)).re ∧
      (orbit (⟨c, 0⟩ : Complex128 K) (k + 1)).re ≤ U2 := by
  rw [orbit_axis_re]
  have hx0 : 0 ≤ (orbit (⟨c, 0⟩ : Complex128 K) k).re := le_trans hL hx.1
  have hlo := mul_le_mul hx.1 hx.1 hL hx0
  have hhi := mul_le_mul hx.2 hx.2 hx0 (le_trans hx0 hx.2)
  constructor <;> linarith

/-- A real value in `[0, 2]` does not pass the escape test. -/
theorem not_escaped_of_axis_bounds {K : Type} [LinearOrderedField K] (v : Complex128 K)
    (him : v.im = 0) (h0 : 0 ≤ v.re) (h2 : v.re ≤ 2) : escaped v = false := by
  cases h : escaped v with
  | false => rfl
  | true =>
    have h4 := (escaped_iff_normSq v).1 h
    simp only [normSq, him, mul_zero, add_zero] at h4
    have := mul_le_mul h2 h2 h0 (by norm_num : (0 : K) ≤ 2)
    exfalso
    linarith

/-- A real value above `2` passes the escape test. -/
theorem escaped_of_axis_bound {K : Type} [LinearOrderedField K] (v : Complex128 K)
    (him : v.im = 0) (h2 : 2 < v.re) : escaped v = true := by
  rw [escaped_iff_normSq]
  simp only [normSq, him, mul_zero, add_zero]
  have := mul_lt_mul h2 (le_of_lt h2) (by norm_num : (0 : K) < 2)
    (le_of_lt (lt_trans (by norm_num : (0 : K) < 2) h2))
  linarith

/-- Over `ℚ` the point `z = 11/40` has its first escape at iteration 17: the
orbit is real and increasing, `v_17 ≤ 1.699` and `v_18 ≥ 2.288`. -/
theorem first_escape_seventeen :
    escaped (orbit (⟨11 / 40, 0⟩ : Complex128 ℚ) (17 + 1)) = true ∧
    ∀ m, m < 17 → escaped (orbit (⟨11 / 40, 0⟩ : Complex128 ℚ) (m + 1)) = false := by
  have b0 : (0 : ℚ) ≤ (orbit (⟨11 / 40, 0⟩ : Complex128 ℚ) 0).re ∧
      (orbit (⟨11 / 40, 0⟩ : Complex128 ℚ) 0).re ≤ 0 := ⟨le_refl _, le_refl _⟩
  have b1 := orbit_axis_step (11 / 40 : ℚ) 0 (0) (0) (11 / 40) (11 / 40)
    (by norm_num) b0 (by norm_num) (by norm_num)
  have b2 := orbit_axis_step (11 / 40 : ℚ) 1 (11 / 40) (11 / 40) (7 / 20) (351 / 1000)
    (by norm_num) b1 (by norm_num) (by norm_num)
  have b3 := orbit_axis_step (11 / 40 : ℚ) 2 (7 / 20) (351 / 1000) (397 / 1000) (399 / 1000)
    (by norm_num) b2 (by norm_num) (by norm_num)
  have b4 := orbit_axis_step (11 / 40 : ℚ) 3 (397 / 1000) (399 / 1000) (54 / 125) (87 / 200)
    (by norm_num) b3 (by norm_num) (by norm_num)
  have b5 := orbit_axis_step (11 / 40 : ℚ) 4 (54 / 125) (87 / 200) (461 / 1000) (93 / 200)
    (by norm_num) b4 (by norm_num) (by norm_num)
  have b6 := orbit_axis_step (11 / 40 : ℚ) 5 (461 / 1000) (93 / 200) (487 / 1000) (123 / 250)
    (by norm_num) b5 (by norm_num) (by norm_num)
  have b7 := orbit_axis_step (11 / 40 : ℚ) 6 (487 / 1000) (123 / 250) (64 / 125) (259 / 500)
    (by norm_num) b6 (by norm_num) (by norm_num)
  have b8 := orbit_axis_step (11 / 40 : ℚ) 7 (64 / 125) (259 / 500) (537 / 1000) (68 / 125)
    (by norm_num) b7 (by norm_num) (by norm_num)
  have b9 := orbit_axis_step (11 / 40 : ℚ) 8 (537 / 1000) (68 / 125) (563 / 1000) (571 / 1000)
    (by norm_num) b8 (by norm_num) (by norm_num)
  have b10 := orbit_axis_step (11 / 40 : ℚ) 9 (563 / 1000) (571 / 1000) (591 / 1000) (301 / 500)
    (by norm_num) b9 (by norm_num) (by norm_num)
  have b11 := orbit_axis_step (11 / 40 : ℚ) 10 (591 / 1000) (301 / 500) (78 / 125) (319 / 500)
    (by norm_num) b10 (by norm_num) (by norm_num)
  have b12 := orbit_axis_step (11 / 40 : ℚ) 11 (78 / 125) (319 / 500) (83 / 125) (683 / 1000)
    (by norm_num) b11 (by norm_num) (by norm_num)
  have b13 := orbit_axis_step (11 / 40 : ℚ) 12 (83 / 125) (683 / 1000) (143 / 200) (371 / 500)
    (by norm_num) b12 (by norm_num) (by norm_num)
  have b14 := orbit_axis_step (11 / 40 : ℚ) 13 (143 / 200) (371 / 500) (393 / 500) (413 / 500)
    (by norm_num) b13 (by norm_num) (by norm_num)
  have b15 := orbit_axis_step (11 / 40 : ℚ) 14 (393 / 500) (413 / 500) (223 / 250) (479 / 500)
    (by norm_num) b14 (by norm_num) (by norm_num)
  have b16 := orbit_axis_step (11 / 40 : ℚ) 15 (223 / 250) (479 / 500) (107 / 100) (1193 / 1000)
    (by norm_num) b15 (by norm_num) (by norm_num)
  have b17 := orbit_axis_step (11 / 40 : ℚ) 16 (107 / 100) (1193 / 1000) (1419 / 1000) (1699 / 1000)
    (by norm_num) b16 (by norm_num) (by norm_num)
  have b18 := orbit_axis_step (11 / 40 : ℚ) 17 (1419 / 1000) (1699 / 1000) (286 / 125) (1581 / 500)
    (by norm_num) b17 (by norm_num) (by norm_num)
  have e0 : escaped (orbit (⟨11 / 40, 0⟩ : Complex128 ℚ) (0 + 1)) = false :=
    not_escaped_of_axis_bounds (orbit (⟨11 / 40, 0⟩ : Complex128 ℚ) (0 + 1)) (orbit_axis_im (11 / 40) (0 + 1))
      (le_trans (by norm_num) b1.1) (le_trans b1.2 (by norm_num))
  have e1 : escaped (orbit (⟨11 / 40, 0⟩ : Complex128 ℚ) (1 + 1)) = false :=
    not_escaped_of_axis_bounds (orbit (⟨11 / 40, 0⟩ : Complex128 ℚ) (1 + 1)) (orbit_axis_im (11 / 40) (1 + 1))
      (le_trans (by norm_num) b2.1) (le_trans b2.2 (by norm_num))
  have e2 : escaped (orbit (⟨11 / 40, 0⟩ : Complex128 ℚ) (2 + 1)) = false :=
    not_escaped_of_axis_bounds (orbit (⟨11 / 40, 0⟩ : Complex128 ℚ) (2 + 1)) (orbit_axis_im (11 / 40) (2 + 1))
      (le_trans (by norm_num) b3.1) (le_trans b3.2 (by norm_num))
  have e3 : escaped (orbit (⟨11 / 40, 0⟩ : Complex128 ℚ) (3 + 1)) = false :=
    not_escaped_of_axis_bounds (orbit (⟨11 / 40, 0⟩ : Complex128 ℚ) (3 + 1)) (orbit_axis_im (11 / 40) (3 + 1))
      (le_trans (by norm_num) b4.1) (le_trans b4.2 (by norm_num))
  have e4 : escaped (orbit (⟨11 / 40, 0⟩ : Complex128 ℚ) (4 + 1)) = false :=
    not_escaped_of_axis_bounds (orbit (⟨11 / 40, 0⟩ : Complex128 ℚ) (4 + 1)) (orbit_axis_im (11 / 40) (4 + 1))
      (le_trans (by norm_num) b5.1) (le_trans b5.2 (by norm_num))
  have e5 : escaped (orbit (⟨11 / 40, 0⟩ : Complex128 ℚ) (5 + 1)) = false :=
    not_escaped_of_axis_bounds (orbit (⟨11 / 40, 0⟩ : Complex128 ℚ) (5 + 1)) (orbit_axis_im (11 / 40) (5 + 1))
      (le_trans (by norm_num) b6.1) (le_trans b6.2 (by norm_num))
  have e6 : escaped (orbit (⟨11 / 40, 0⟩ : Complex128 ℚ) (6 + 1)) = false :=
    not_escaped_of_axis_bounds (orbit (⟨11 / 40, 0⟩ : Complex128 ℚ) (6 + 1)) (orbit_axis_im (11 / 40) (6 + 1))
      (le_trans (by norm_num) b7.1) (le_trans b7.2 (by norm_num))
  have e7 : escaped (orbit (⟨11 / 40, 0⟩ : Complex128 ℚ) (7 + 1)) = false :=
    not_escaped_of_axis_bounds (orbit (⟨11 / 40, 0⟩ : Complex128 ℚ) (7 + 1)) (orbit_axis_im (11 / 40) (7 + 1))
      (le_trans (by norm_num) b8.1) (le_trans b8.2 (by norm_num))
  have e8 : escaped (orbit (⟨11 / 40, 0⟩ : Complex128 ℚ) (8 + 1)) = false :=
    not_escaped_of_axis_bounds (orbit (⟨11 / 40, 0⟩ : Complex128 ℚ) (8 + 1)) (orbit_axis_im (11 / 40) (8 + 1))
      (le_trans (by norm_num) b9.1) (le_trans b9.2 (by norm_num))
  have e9 : escaped (orbit (⟨11 / 40, 0⟩ : Complex128 ℚ) (9 + 1)) = false :=
    not_escaped_of_axis_bounds (orbit (⟨11 / 40, 0⟩ : Complex128 ℚ) (9 + 1)) (orbit_axis_im (11 / 40) (9 + 1))
      (le_trans (by norm_num) b10.1) (le_trans b10.2 (by norm_num))
  have e10 : escaped (orbit (⟨11 / 40, 0⟩ : Complex128 ℚ) (10 + 1)) = false :=
    not_escaped_of_axis_bounds (orbit (⟨11 / 40, 0⟩ : Complex128 ℚ) (10 + 1)) (orbit_axis_im (11 / 40) (10 + 1))
      (le_trans (by norm_num) b11.1) (le_trans b11.2 (by norm_num))
  have e11 : escaped (orbit (⟨11 / 40, 0⟩ : Complex128 ℚ) (11 + 1)) = false :=
    not_escaped_of_axis_bounds (orbit (⟨11 / 40, 0⟩ : Complex128 ℚ) (11 + 1)) (orbit_axis_im (11 / 40) (11 + 1))
      (le_trans (by norm_num) b12.1) (le_trans b12.2 (by norm_num))
  have e12 : escaped (orbit (⟨11 / 40, 0⟩ : Complex128 ℚ) (12 + 1)) = false :=
    not_escaped_of_axis_bounds (orbit (⟨11 / 40, 0⟩ : Complex128 ℚ) (12 + 1)) (orbit_axis_im (11 / 40) (12 + 1))
      (le_trans (by norm_num) b13.1) (le_trans b13.2 (by norm_num))
  have e13 : escaped (orbit (⟨11 / 40, 0⟩ : Complex128 ℚ) (13 + 1)) = false :=
    not_escaped_of_axis_bounds (orbit (⟨11 / 40, 0⟩ : Complex128 ℚ) (13 + 1)) (orbit_axis_im (11 / 40) (13 + 1))
      (le_trans (by norm_num) b14.1) (le_trans b14.2 (by norm_num))
  have e14 : escaped (orbit (⟨11 / 40, 0⟩ : Complex128 ℚ) (14 + 1)) = false :=
    not_escaped_of_axis_bounds (orbit (⟨11 / 40, 0⟩ : Complex128 ℚ) (14 + 1)) (orbit_axis_im (11 / 40) (14 + 1))
      (le_trans (by norm_num) b15.1) (le_trans b15.2 (by norm_num))
  have e15 : escaped (orbit (⟨11 / 40, 0⟩ : Complex128 ℚ) (15 + 1)) = false :=
    not_escaped_of_axis_bounds (orbit (⟨11 / 40, 0⟩ : Complex128 ℚ) (15 + 1)) (orbit_axis_im (11 / 40) (15 + 1))
      (le_trans (by norm_num) b16.1) (le_trans b16.2 (by norm_num))
  have e16 : escaped (orbit (⟨11 / 40, 0⟩ : Complex128 ℚ) (16 + 1)) = false :=
    not_escaped_of_axis_bounds (orbit (⟨11 / 40, 0⟩ : Complex128 ℚ) (16 + 1)) (orbit_axis_im (11 / 40) (16 + 1))
      (le_trans (by norm_num) b17.1) (le_trans b17.2 (by norm_num))
  have e17 : escaped (orbit (⟨11 / 40, 0⟩ : Complex128 ℚ) (17 + 1)) = true :=
    escaped_of_axis_bound (orbit (⟨11 / 40, 0⟩ : Complex128 ℚ) (17 + 1)) (orbit_axis_im (11 / 40) (17 + 1))
      (lt_of_lt_of_le (by norm_num) b18.1)
  refine ⟨e17, ?_⟩
  intro m hm
  interval_cases m
  · exact e0
  · exact e1
  · exact e2
  · exact e3
  · exact e4
  · exact e5
  · exact e6
  · exact e7
  · exact e8
  · exact e9
  · exact e10
  · exact e11
  · exact e12
  · exact e13
  · exact e14
  · exact e15
  · exact e16

/-- Over `ℚ` the point `z = 1` has its first escape at iteration 2. -/
theorem first_escape_two :
    escaped (orbit (⟨1, 0⟩ : Complex128 ℚ) (2 + 1)) = true ∧
    ∀ m, m < 2 → escaped (orbit (⟨1, 0⟩ : Complex128 ℚ) (m + 1)) = false := by
  constructor
  · rw [orbit_one 2 (by decide)]
    norm_num [escaped, CmplxAbs.absGtTwo]
  · intro m hm
    rw [orbit_one m (by omega)]
    interval_cases m <;> norm_num [escaped, CmplxAbs.absGtTwo]

/-- The point `z = 0` never escapes, over exact arithmetic. -/
theorem no_escape_zero {K : Type} [LinearOrderedField K] (m : Nat) :
    escaped (orbit (⟨0, 0⟩ : Complex128 K) (m + 1)) = false := by
  rw [orbit_zero]
  exact escaped_zero

/-- Witness for C16 over `ℚ`: `z = 11/40` escapes at iteration 17 and is
stored with intensity `0`, like the in-set point `0`. -/
theorem mandelbrot_black_iff_witness :
    ((17 : Nat) < 255 ∧
      escaped (orbit (⟨11 / 40, 0⟩ : Complex128 ℚ) (17 + 1)) = true ∧
      (∀ m, m < 17 → escaped (orbit (⟨11 / 40, 0⟩ : Complex128 ℚ) (m + 1)) = false) ∧
      (∀ m, m < 255 → escaped (orbit (⟨0, 0⟩ : Complex128 ℚ) (m + 1)) = false)) ∧
    (mandelbrot (⟨11 / 40, 0⟩ : Complex128 ℚ)).grayY = 0 ∧
    (mandelbrot (⟨11 / 40, 0⟩ : Complex128 ℚ)).grayY =
      (mandelbrot (⟨0, 0⟩ : Complex128 ℚ)).grayY :=
  ⟨⟨by decide, first_escape_seventeen.1, first_escape_seventeen.2,
      fun m _ => no_escape_zero m⟩,
    (mandelbrot_black_iff (⟨11 / 40, 0⟩ : Complex128 ℚ) ⟨0, 0⟩ 17 (by decide)
      first_escape_seventeen.1 first_escape_seventeen.2
      (fun m _ => no_escape_zero m)).2.1.2 rfl,
    (mandelbrot_black_iff (⟨11 / 40, 0⟩ : Complex128 ℚ) ⟨0, 0⟩ 17 (by decide)
      first_escape_seventeen.1 first_escape_seventeen.2
      (fun m _ => no_escape_zero m)).2.2 rfl⟩

/-- Witness for C17 over `ℚ`: `z = 11/40` escapes at iteration 17, `z = 1` at
iteration 2, and their colours differ. -/
theorem mandelbrot_intensity_injective_witness :
    ((17 : Nat) < 255 ∧ (2 : Nat) < 255 ∧ (17 : Nat) ≠ 2 ∧
      escaped (orbit (⟨11 / 40, 0⟩ : Complex128 ℚ) (17 + 1)) = true ∧
      (∀ m, m < 17 → escaped (orbit (⟨11 / 40, 0⟩ : Complex128 ℚ) (m + 1)) = false) ∧
      escaped (orbit (⟨1, 0⟩ : Complex128 ℚ) (2 + 1)) = true ∧
      (∀ m, m < 2 → escaped (orbit (⟨1, 0⟩ : Complex128 ℚ) (m + 1)) = false)) ∧
    (mandelbrot (⟨11 / 40, 0⟩ : Complex128 ℚ)).grayY ≠
      (mandelbrot (⟨1, 0⟩ : Complex128 ℚ)).grayY :=
  ⟨⟨by decide, by decide, by decide, first_escape_seventeen.1, first_escape_seventeen.2,
      first_escape_two.1, first_escape_two.2⟩,
    (mandelbrot_intensity_injective (⟨11 / 40, 0⟩ : Complex128 ℚ) ⟨1, 0⟩ 17 2 (by decide)
      (by decide) first_escape_seventeen.1 first_escape_seventeen.2
      first_escape_two.1 first_escape_two.2 (by decide)).1⟩

/-! ### Round trip of the dimension pair -/

theorem digitVal_digitChar (d : Nat) (hd : d < 10) : digitVal (digitChar d) = some d := by
  interval_cases d <;> rfl

/-- A digit character is none of `x`, `-`, `+`. -/
theorem digitChar_ne (d : Nat) (hd : d < 10) :
    digitChar d ≠ 'x' ∧ digitChar d ≠ '-' ∧ digitChar d ≠ '+' := by
  interval_cases d <;> decide

/-- Reading back a string of digit characters. -/
theorem parseDigits_map (l : List Nat) (hl : ∀ d ∈ l, d < 10) (acc : Nat) :
    parseDigits (l.map digitChar) acc = some (l.foldl (fun a d => a * 10 + d) acc) := by
  induction l generalizing acc with
  | nil => rfl
  | cons d t ih =>
    simp only [List.map_cons, parseDigits, List.foldl_cons]
    rw [digitVal_digitChar d (hl d (List.mem_cons_self _ _))]
    exact ih (fun e he => hl e (List.mem_cons_of_mem _ he)) _

/-- Horner evaluation of the digits of `n`, most significant first, gives `n`. -/
theorem foldl_digits (n : Nat) :
    ((Nat.digits 10 n).reverse).foldl (fun a d => a * 10 + d) 0 = n := by
  rw [List.foldl_reverse]
  have h := Nat.ofDigits_digits 10 n
  rw [Nat.ofDigits_eq_foldr] at h
  have e : (fun (x y : Nat) => y * 10 + x) = (fun (x y : Nat) => x + 10 * y) := by
    funext x y
    omega
  rw [e]
  simpa using h

/-- The decimal rendering of a natural number is a non-empty string of digit
characters that reads back as the number. -/
theorem decimalNat_spec (n : Nat) :
    ∃ l : List Nat, l ≠ [] ∧ (∀ d ∈ l, d < 10) ∧ decimalNat n = l.map digitChar ∧
      l.foldl (fun a d => a * 10 + d) 0 = n := by
  by_cases h : n = 0
  · subst h
    exact ⟨[0], by simp, by simp, rfl, rfl⟩
  · refine ⟨(Nat.digits 10 n).reverse, ?_, ?_, ?_, foldl_digits n⟩
    · intro hnil
      rw [List.reverse_eq_nil_iff] at hnil
      exact h (Nat.digits_eq_nil_iff_eq_zero.1 hnil)
    · intro d hd
      rw [List.mem_reverse] at hd
      exact Nat.digits_lt_base (by decide) hd
    · unfold decimalNat
      rw [if_neg h]

theorem parseDigits_decimalNat (n : Nat) : parseDigits (decimalNat n) 0 = some n := by
  obtain ⟨l, _, hl, hd, hf⟩ := decimalNat_spec n
  rw [hd, parseDigits_map l hl, hf]

/-- The rendering of a natural number starts with a digit character. -/
theorem decimalNat_cons (n : Nat) :
    ∃ d r, d < 10 ∧ decimalNat n = digitChar d :: r := by
  obtain ⟨l, hne, hl, hd, _⟩ := decimalNat_spec n
  cases l with
  | nil => exact absurd rfl hne
  | cons d t => exact ⟨d, t.map digitChar, hl d (List.mem_cons_self _ _), by rw [hd]; rfl⟩

theorem x_not_mem_decimalNat (n : Nat) : 'x' ∉ decimalNat n := by
  obtain ⟨l, _, hl, hd, _⟩ := decimalNat_spec n
  rw [hd, List.mem_map]
  rintro ⟨d, hdl, hx⟩
  exact (digitChar_ne d (hl d hdl)).1 hx

theorem x_not_mem_decimal (i : Int) : 'x' ∉ decimal i := by
  unfold decimal
  split_ifs
  · rw [List.mem_cons]
    rintro (h | h)
    · exact absurd h (by decide)
    · exact x_not_mem_decimalNat _ h
  · exact x_not_mem_decimalNat _

/-- `Atoi` on a string with a leading minus sign. -/
theorem Atoi_minus (r : List Char) :
    Atoi ('-' :: r) =
      if r.isEmpty then none
      else
        match parseDigits r 0 with
        | none => none
        | some n =>
          if -(2 : Int) ^ 63 ≤ -(n : Int) ∧ -(n : Int) < (2 : Int) ^ 63 then some (-(n : Int))
          else none := rfl

/-- `Atoi` on a string that starts with a digit. -/
theorem Atoi_digit (d : Nat) (hd : d < 10) (r : List Char) :
    Atoi (digitChar d :: r) =
      match parseDigits (digitChar d :: r) 0 with
      | none => none
      | some n =>
        if -(2 : Int) ^ 63 ≤ (n : Int) ∧ (n : Int) < (2 : Int) ^ 63 then some (n : Int)
        else none := by
  interval_cases d <;> rfl

/-- `Atoi` reads back the decimal rendering of every 64-bit integer. -/
theorem Atoi_decimal (i : Int) (hlo : -(2 : Int) ^ 63 ≤ i) (hhi : i < (2 : Int) ^ 63) :
    Atoi (decimal i) = some i := by
  unfold decimal
  by_cases hneg : i < 0
  · rw [if_pos hneg, Atoi_minus]
    obtain ⟨d, r, _, hdr⟩ := decimalNat_cons i.natAbs
    have hne : (decimalNat i.natAbs).isEmpty = false := by rw [hdr]; rfl
    have hi : -((i.natAbs : Nat) : Int) = i := by omega
    simp only [hne, parseDigits_decimalNat, hi]
    norm_num at hlo hhi
    simp [hlo, hhi]
  · rw [if_neg hneg]
    obtain ⟨d, r, hd, hdr⟩ := decimalNat_cons i.natAbs
    have hp := parseDigits_decimalNat i.natAbs
    rw [hdr] at hp ⊢
    rw [Atoi_digit d hd r, hp]
    have hi : ((i.natAbs : Nat) : Int) = i := by omega
    simp only [hi]
    norm_num at hlo hhi
    simp [hlo, hhi]

/-- Splitting at a separator that does not occur gives the string itself. -/
theorem Split_of_not_mem (l : List Char) (sep : Char) (h : sep ∉ l) : Split l sep = [l] := by
  induction l with
  | nil => rfl
  | cons c cs ih =>
    have hc : c ≠ sep := fun e => h (by rw [e]; exact List.mem_cons_self _ _)
    have hcs : sep ∉ cs := fun e => h (List.mem_cons_of_mem _ e)
    unfold Split
    rw [if_neg hc, ih hcs]

theorem Split_cons_ne (c : Char) (cs : List Char) (sep : Char) (h : c ≠ sep) :
    Split (c :: cs) sep =
      match Split cs sep with
      | p :: ps => (c :: p) :: ps
      | [] => [[c]] := by
  simp [Split, h]

theorem Split_cons_sep (cs : List Char) (sep : Char) :
    Split (sep :: cs) sep = [] :: Split cs sep := by
  simp [Split]

/-- Splitting `a ++ sep :: b` when the separator does not occur in `a`. -/
theorem Split_append (a b : List Char) (sep : Char) (h : sep ∉ a) :
    Split (a ++ sep :: b) sep = a :: Split b sep := by
  induction a with
  | nil =>
    rw [List.nil_append, Split_cons_sep]
  | cons c cs ih =>
    have hc : c ≠ sep := fun e => h (by rw [e]; exact List.mem_cons_self _ _)
    have hcs : sep ∉ cs := fun e => h (List.mem_cons_of_mem _ e)
    rw [List.cons_append, Split_cons_ne _ _ _ hc, ih hcs]

/-- C15. Dimension parsing round trip: for all integers `w` and `h` in the
range of Go's 64-bit `int`, `parsePair` applied to the decimal rendering of
`w`, the character `x` and the decimal rendering of `h` returns exactly
`(w, h)` without failing, negative values and zero included. -/
theorem parsePair_roundtrip (w h : Int)
    (hw : -(2 : Int) ^ 63 ≤ w ∧ w < (2 : Int) ^ 63)
    (hh : -(2 : Int) ^ 63 ≤ h ∧ h < (2 : Int) ^ 63) :
    parsePair (pairString w h) 'x' = Except.ok (w, h) := by
  have hs : Split (pairString w h).toList 'x' = [decimal w, decimal h] := by
    show Split (decimal w ++ 'x' :: decimal h) 'x' = [decimal w, decimal h]
    rw [Split_append _ _ _ (x_not_mem_decimal w), Split_of_not_mem _ _ (x_not_mem_decimal h)]
  rw [parsePair_two _ _ _ _ hs, Atoi_decimal w hw.1 hw.2, Atoi_decimal h hh.1 hh.2]

/-- Witness for C15: the pair `(-9223372036854775808, 0)`, rendered as
`-9223372036854775808x0`. -/
theorem parsePair_roundtrip_witness :
    (-(2 : Int) ^ 63 ≤ -9223372036854775808 ∧ (-9223372036854775808 : Int) < (2 : Int) ^ 63) ∧
    (-(2 : Int) ^ 63 ≤ 0 ∧ (0 : Int) < (2 : Int) ^ 63) ∧
    pairString (-9223372036854775808) 0 = "-9223372036854775808x0" ∧
    parsePair (pairString (-9223372036854775808) 0) 'x' =
      Except.ok (-9223372036854775808, 0) :=
  ⟨by decide, by decide, by norm_num [pairString, decimal, decimalNat, digitChar]; rfl,
    parsePair_roundtrip (-9223372036854775808) 0 (by decide) (by decide)⟩

/-! ### The `float64` model at work -/

theorem Float64.zero_eq_mk : (0 : Float64) = ⟨0⟩ := rfl

/-- For every arithmetic: if the escape test succeeds on the first update
`0 * 0 + z`, the loop returns at counter `0` with intensity `255`. -/
theorem mandelbrot_first_update_escape {F : Type} [Zero F] [Add F] [Sub F] [Mul F]
    [CmplxAbs F] (z : Complex128 F) (h : escaped ((0 : Complex128 F) * 0 + z) = true) :
    mandelbrotCounters z = [0] ∧ mandelbrot z = Color.Gray 255 := by
  have hl := mandelbrotLoop_escape z 0 0 (by decide) h
  constructor
  · unfold mandelbrotCounters; rw [hl]
  · unfold mandelbrot; rw [hl]

end Mandelbrot
